import Mathlib

/-!
Verification of the deterministic scoring core of a resume-analysis backend.

The Python sources (`backend/app/services/scoring_engine.py`,
`ai_match_cache.py`, `embeddings.py`, `semantic_similarity.py`,
`resume_parsing.py`) are shallowly embedded below.  Python floats are
modelled as exact rationals (`ℚ`); Python ints as `ℤ`; `None`-able
arguments as `Option`; exceptions as `Except`; the SQLAlchemy-backed
tables as explicit lists of rows threaded through the functions.
-/

namespace Spec2Proof

/-- Model of Python's builtin `round` on a real value represented as a
rational: round half to even (banker's rounding), returning an integer. -/
def pyRound (q : ℚ) : ℤ :=
  let f : ℤ := q.floor
  let r : ℚ := q - (f : ℚ)
  if r < 1/2 then f
  else if 1/2 < r then f + 1
  else if f % 2 = 0 then f else f + 1

theorem ratFloor_eq_floor (q : ℚ) : q.floor = ⌊q⌋ := by
  rw [Rat.floor_def, Rat.floor_def']

/-- The two sequential `if x < 0 / if x > 1` clamps used throughout
`scoring_engine.py`. -/
def clamp01 (q : ℚ) : ℚ :=
  let q1 := if q < 0 then 0 else q
  if q1 > 1 then 1 else q1

/-- Embedding of `scoring_engine.compute_final_score`: clamp the five
component scores to [0,1], combine with fixed weights, round, clamp to
[0,100]. -/
def compute_final_score (semantic_score skills_score experience_score
    education_score ai_reasoning_score : ℚ) : ℤ :=
  let s := clamp01 semantic_score
  let sk := clamp01 skills_score
  let ex := clamp01 experience_score
  let ed := clamp01 education_score
  let ai := clamp01 ai_reasoning_score
  let val : ℚ := 100 * (0.10 * s + 0.20 * sk + 0.15 * ex + 0.10 * ed + 0.45 * ai)
  let out := pyRound val
  if out < 0 then 0
  else if out > 100 then 100
  else out

theorem clamp01_nonneg (q : ℚ) : 0 ≤ clamp01 q := by
  unfold clamp01
  dsimp only
  split
  · norm_num
  · split
    · norm_num
    · linarith

theorem clamp01_le_one (q : ℚ) : clamp01 q ≤ 1 := by
  unfold clamp01
  dsimp only
  split
  · norm_num
  · split
    · norm_num
    · linarith

theorem pyRound_nonneg {q : ℚ} (h : 0 ≤ q) : 0 ≤ pyRound q := by
  unfold pyRound
  dsimp only
  rw [ratFloor_eq_floor]
  have hf : (0 : ℤ) ≤ ⌊q⌋ := Int.floor_nonneg.mpr h
  split
  · exact hf
  · split
    · omega
    · split <;> omega

theorem pyRound_le_of_le {q : ℚ} {n : ℤ} (h : q ≤ n) : pyRound q ≤ n := by
  unfold pyRound
  dsimp only
  rw [ratFloor_eq_floor]
  have hf : ⌊q⌋ ≤ n := by
    have h2 : ⌊q⌋ ≤ ⌊(n : ℚ)⌋ := Int.floor_le_floor h
    simpa using h2
  by_cases hlt : q - (⌊q⌋ : ℚ) < 1/2
  · simp only [hlt, if_true]
    exact hf
  · have hge : (1:ℚ)/2 ≤ q - (⌊q⌋ : ℚ) := le_of_not_lt hlt
    have hstrict : ⌊q⌋ < n := by
      by_contra hcon
      have hfe : ⌊q⌋ = n := le_antisymm hf (le_of_not_lt hcon)
      have hq : q - (⌊q⌋ : ℚ) ≤ 0 := by
        rw [hfe]; linarith
      linarith
    simp only [hlt, if_false]
    split
    · omega
    · split <;> omega

/-- C1: `compute_final_score` clamps each component to [0,1], returns the
rounded weighted blend (0.45 AI, 0.20 skills, 0.15 experience, 0.10
education, 0.10 semantic), and its result always lies in [0,100] for
arbitrary (also adversarial) rational inputs. -/
theorem compute_final_score_in_range (se sk ex ed ai : ℚ) :
    compute_final_score se sk ex ed ai =
      pyRound (100 * (0.45 * clamp01 ai + 0.20 * clamp01 sk + 0.15 * clamp01 ex
        + 0.10 * clamp01 ed + 0.10 * clamp01 se)) ∧
    0 ≤ compute_final_score se sk ex ed ai ∧
    compute_final_score se sk ex ed ai ≤ 100 := by
  have hs0 := clamp01_nonneg se
  have hs1 := clamp01_le_one se
  have hk0 := clamp01_nonneg sk
  have hk1 := clamp01_le_one sk
  have hx0 := clamp01_nonneg ex
  have hx1 := clamp01_le_one ex
  have hd0 := clamp01_nonneg ed
  have hd1 := clamp01_le_one ed
  have ha0 := clamp01_nonneg ai
  have ha1 := clamp01_le_one ai
  have hval0 : (0:ℚ) ≤ 100 * (0.10 * clamp01 se + 0.20 * clamp01 sk
      + 0.15 * clamp01 ex + 0.10 * clamp01 ed + 0.45 * clamp01 ai) := by
    nlinarith
  have hval100 : 100 * (0.10 * clamp01 se + 0.20 * clamp01 sk
      + 0.15 * clamp01 ex + 0.10 * clamp01 ed + 0.45 * clamp01 ai) ≤ 100 := by
    nlinarith
  have hr0 : 0 ≤ pyRound (100 * (0.10 * clamp01 se + 0.20 * clamp01 sk
      + 0.15 * clamp01 ex + 0.10 * clamp01 ed + 0.45 * clamp01 ai)) :=
    pyRound_nonneg hval0
  have hr100 : pyRound (100 * (0.10 * clamp01 se + 0.20 * clamp01 sk
      + 0.15 * clamp01 ex + 0.10 * clamp01 ed + 0.45 * clamp01 ai)) ≤ (100:ℤ) :=
    pyRound_le_of_le (by exact_mod_cast hval100)
  have hunf : compute_final_score se sk ex ed ai =
      pyRound (100 * (0.10 * clamp01 se + 0.20 * clamp01 sk
        + 0.15 * clamp01 ex + 0.10 * clamp01 ed + 0.45 * clamp01 ai)) := by
    unfold compute_final_score
    dsimp only
    rw [if_neg (not_lt.mpr hr0), if_neg (not_lt.mpr hr100)]
  refine ⟨?_, ?_, ?_⟩
  · rw [hunf]; congr 1; ring
  · rw [hunf]; exact hr0
  · rw [hunf]; exact hr100

/-- C3 counterexample: on the spec's worked example the engine does not
return 58. -/
theorem final_score_worked_example_ne_58 :
    compute_final_score 0.8 0.667 0.5 0.3 0.88 ≠ 58 := by
  norm_num [compute_final_score, clamp01, pyRound, ratFloor_eq_floor]

/-- C3 amended: the worked-example inputs evaluate, by the spec's own
formula, to round(100*0.7144) = 71 (the spec's figure 0.5834 → 58 is an
arithmetic slip). -/
theorem final_score_worked_example_71 :
    compute_final_score 0.8 0.667 0.5 0.3 0.88 =
      pyRound (100 * (0.45 * 0.88 + 0.20 * 0.667 + 0.15 * 0.5 + 0.10 * 0.3 + 0.10 * 0.8)) ∧
    compute_final_score 0.8 0.667 0.5 0.3 0.88 = 71 := by
  constructor
  · norm_num [compute_final_score, clamp01, pyRound, ratFloor_eq_floor]
  · norm_num [compute_final_score, clamp01, pyRound, ratFloor_eq_floor]

/-! ### Python string primitives -/

/-- Python whitespace characters (`str.strip`, `\s`), ASCII fragment. -/
def isPySpace (c : Char) : Bool :=
  c = ' ' || c = '\t' || c = '\n' || c = '\x0d' || c = '\x0b' || c = '\x0c'

/-- Strip the given characters from the front of a char list. -/
def stripLeftChars (p : Char → Bool) : List Char → List Char
  | [] => []
  | c :: cs => if p c then stripLeftChars p cs else c :: cs

/-- Python `str.strip(chars)` on a char list. -/
def stripChars (p : Char → Bool) (l : List Char) : List Char :=
  ((stripLeftChars p ((stripLeftChars p l).reverse)).reverse)

/-- Python `str.strip()` (whitespace). -/
def pyStrip (s : String) : String :=
  ⟨stripChars isPySpace s.data⟩

/-- Python `str.lower()` (ASCII), character by character. -/
def strLower (s : String) : String :=
  ⟨s.data.map Char.toLower⟩

/-- Python `str.upper()` (ASCII), character by character. -/
def strUpper (s : String) : String :=
  ⟨s.data.map Char.toUpper⟩

/-- Python `str.split(sep)` with a single-character separator: split on
every occurrence, keeping empty pieces. -/
def splitOnCharAux (sep : Char) : List Char → List Char → List String
  | [], cur => [⟨cur.reverse⟩]
  | a :: as, cur =>
    if a = sep then ⟨cur.reverse⟩ :: splitOnCharAux sep as []
    else splitOnCharAux sep as (a :: cur)

def splitOnChar (sep : Char) (s : String) : List String :=
  splitOnCharAux sep s.data []

theorem strLength_data (s : String) : s.length = s.data.length := rfl

/-- Apply `f` to every maximal run of characters satisfying `p`, keeping the
other characters; models `re.sub` with a character-class-run pattern. -/
def mapRunsAux (p : Char → Bool) (f : List Char → List Char) :
    List Char → List Char → List Char
  | [], cur => f cur.reverse
  | c :: cs, cur =>
    if p c then mapRunsAux p f cs (c :: cur)
    else f cur.reverse ++ c :: mapRunsAux p f cs []

def mapRuns (p : Char → Bool) (f : List Char → List Char) (l : List Char) : List Char :=
  mapRunsAux p f l []

/-- Maximal runs of characters satisfying `p` (the matches of a regex like
`[class]{1,}` under `finditer`). -/
def splitRunsAux (p : Char → Bool) : List Char → List Char → List (List Char)
  | [], cur => if cur.isEmpty then [] else [cur.reverse]
  | c :: cs, cur =>
    if p c then splitRunsAux p cs (c :: cur)
    else if cur.isEmpty then splitRunsAux p cs []
    else cur.reverse :: splitRunsAux p cs []

def splitRuns (p : Char → Bool) (l : List Char) : List (List Char) :=
  splitRunsAux p l []

/-- The character class `[A-Za-z0-9+#.]` of `_WORD_RE` in
`scoring_engine.py`. -/
def isWordChar (c : Char) : Bool :=
  c.isAlpha || c.isDigit || c = '+' || c = '#' || c = '.'

/-- `_WORD_RE.finditer`: maximal `[A-Za-z0-9+#.]` runs of length ≥ 2. -/
def wordFinditer (s : String) : List String :=
  ((splitRuns isWordChar s.data).filter (fun r => 2 ≤ r.length)).map
    (fun r => ⟨r⟩)

/-- Python substring membership `needle in hay` on char lists. -/
def containsSub (nee : List Char) : List Char → Bool
  | [] => nee.isEmpty
  | c :: cs => nee.isPrefixOf (c :: cs) || containsSub nee cs

/-- Python `needle in hay` for strings. -/
def pyInStr (nee hay : String) : Bool :=
  containsSub nee.data hay.data

/-- Python truthiness-based `x or default` for an optional string
(`None` and `""` are falsy). -/
def pyOrStr (o : Option String) (d : String) : String :=
  match o with
  | none => d
  | some s => if s = "" then d else s

/-- First-seen-order deduplication (the `seen` set idiom). -/
def dedupFirstAux [BEq α] : List α → List α → List α
  | [], _ => []
  | x :: xs, seen =>
    if seen.contains x then dedupFirstAux xs seen
    else x :: dedupFirstAux xs (x :: seen)

def dedupFirst [BEq α] (l : List α) : List α :=
  dedupFirstAux l []

/-! ### scoring_engine.py: skill canonicalization and overlap -/

/-- The `_STOP` stop-word set of `scoring_engine.py`. -/
def _STOP : List String :=
  ["a", "an", "and", "are", "as", "at", "be", "by", "for", "from", "in",
   "is", "it", "of", "on", "or", "that", "the", "this", "to", "with",
   "you", "your"]

/-- The `_SKILL_ALIASES` table of `scoring_engine.py`. -/
def _SKILL_ALIASES : List (String × String) :=
  [("fastapi", "python"), ("django", "python"), ("flask", "python"),
   ("pandas", "python"), ("numpy", "python"), ("spring", "java"),
   ("springboot", "java"), ("node", "javascript"), ("nodejs", "javascript"),
   ("reactjs", "react"), ("nextjs", "react"), ("typescript", "javascript"),
   ("postgresql", "sql"), ("mysql", "sql"), ("sqlite", "sql"),
   ("rest", "api"), ("restapi", "api"), ("microservices", "backend"),
   ("microservice", "backend")]

def aliasGet (k : String) : Option String :=
  (_SKILL_ALIASES.find? (fun p => p.1 == k)).map (·.2)

/-- Character class `[a-z0-9+#. ]` used by `_normalize_skill`. -/
def isNormSkillChar (c : Char) : Bool :=
  c.isLower || c.isDigit || c = '+' || c = '#' || c = '.' || c = ' '

/-- `scoring_engine._normalize_skill`: strip+lowercase, replace runs of
characters outside `[a-z0-9+#. ]` by a space, strip, collapse whitespace
runs of length ≥ 2 to one space. -/
def _normalize_skill (s : String) : String :=
  let s1 := strLower (pyStrip s)
  let s2 : String :=
    ⟨stripChars isPySpace
      (mapRuns (fun c => !(isNormSkillChar c))
        (fun r => if r.isEmpty then [] else [' ']) s1.data)⟩
  ⟨mapRuns isPySpace (fun r => if 2 ≤ r.length then [' '] else r) s2.data⟩

/-- `scoring_engine._canonical_skill`: alias lookup on the space-free
normalized key, then on the normalized form, else identity. -/
def _canonical_skill (s : String) : String :=
  let n := _normalize_skill s
  let key : String := ⟨n.data.filter (fun c => c ≠ ' ')⟩
  match aliasGet key with
  | some v => v
  | none =>
    match aliasGet n with
    | some v => v
    | none => n

/-- `scoring_engine.extract_job_skill_tokens`: explicit required skills are
canonicalized, deduplicated and capped at 60; otherwise title+description
is tokenized, stop-word filtered, canonicalized and capped at 60. -/
def extract_job_skill_tokens (job_title job_description : Option String)
    (required_skills : Option (List String)) : List String :=
  let explicit := ((required_skills.getD []).map _canonical_skill).filter (fun s => s ≠ "")
  if explicit ≠ [] then
    (dedupFirst explicit).take 60
  else
    let text := strLower (pyStrip ((pyOrStr job_title "") ++ "\n" ++ (pyOrStr job_description "")))
    let toks := (wordFinditer text).foldl
      (fun (acc : List String) w0 =>
        let w : String := ⟨stripChars (fun c => c = '.') w0.data⟩
        if w = "" || _STOP.contains w then acc
        else if 40 < w.length then acc
        else
          let w := _canonical_skill w
          if acc.contains w then acc else acc ++ [w])
      []
    toks.take 60

/-- `scoring_engine.skills_overlap_score`: matched/missing job tokens
against the resume-skill set, F1-style blend of recall and precision,
clamped, with display caps 12/8. -/
def skills_overlap_score (resume_skills job_skills : List String) :
    ℚ × List String × List String :=
  let rs := resume_skills
  let js := job_skills
  if js = [] then (0, [], [])
  else
    let matched := js.filter (fun j => rs.contains j)
    let missing := js.filter (fun j => !(rs.contains j))
    let recall_q : ℚ := (matched.length : ℚ) / (max 1 js.length : ℕ)
    let precision : ℚ :=
      if rs = [] then 0 else (matched.length : ℚ) / (max 1 (dedupFirst rs).length : ℕ)
    let score : ℚ :=
      if precision + recall_q ≤ 0 then 0
      else (2 * precision * recall_q) / (precision + recall_q)
    let score := if score < 0 then 0 else score
    let score := if score > 1 then 1 else score
    (score, matched.take 12, missing.take 8)

/-- Spec-side recall: `|matched| / |job tokens|`. -/
def spec_recall (resume_skills job_skills : List String) : ℚ :=
  ((job_skills.filter (fun j => resume_skills.contains j)).length : ℚ)
    / (job_skills.length : ℚ)

/-- Spec-side precision: `|matched| / |resume tokens|` where the resume
tokens form a set (distinct count), and 0 when there are none. -/
def spec_precision (resume_skills job_skills : List String) : ℚ :=
  if resume_skills = [] then 0
  else ((job_skills.filter (fun j => resume_skills.contains j)).length : ℚ)
    / ((dedupFirst resume_skills).length : ℚ)

/-- Harmonic mean (F1) of precision and recall; 0 when both are 0. -/
def spec_f1 (p r : ℚ) : ℚ :=
  if p = 0 ∧ r = 0 then 0 else 2 * p * r / (p + r)

theorem dedupFirst_ne_nil {l : List String} (h : l ≠ []) : dedupFirst l ≠ [] := by
  cases l with
  | nil => exact absurd rfl h
  | cons x xs =>
    simp [dedupFirst, dedupFirstAux]

theorem spec_recall_nonneg (rs js : List String) : 0 ≤ spec_recall rs js := by
  unfold spec_recall
  positivity

theorem spec_precision_nonneg (rs js : List String) : 0 ≤ spec_precision rs js := by
  unfold spec_precision
  split
  · exact le_refl 0
  · positivity

/-- C4: with a non-empty job-token list the overlap score is the clamped
F1 blend of spec-side recall and precision, together with at most 12
matched and at most 8 missing job tokens, in job-token order. -/
theorem skills_overlap_score_spec (resume_skills job_skills : List String)
    (h : job_skills ≠ []) :
    skills_overlap_score resume_skills job_skills =
      (clamp01 (spec_f1 (spec_precision resume_skills job_skills)
                        (spec_recall resume_skills job_skills)),
       (job_skills.filter (fun j => resume_skills.contains j)).take 12,
       (job_skills.filter (fun j => !(resume_skills.contains j))).take 8) ∧
    0 ≤ (skills_overlap_score resume_skills job_skills).1 ∧
    (skills_overlap_score resume_skills job_skills).1 ≤ 1 ∧
    (skills_overlap_score resume_skills job_skills).2.1.length ≤ 12 ∧
    (skills_overlap_score resume_skills job_skills).2.2.length ≤ 8 := by
  have hlen : 0 < job_skills.length := List.length_pos.mpr h
  have hmax : max 1 job_skills.length = job_skills.length := by omega
  have hr : ((job_skills.filter (fun j => resume_skills.contains j)).length : ℚ)
      / ((max 1 job_skills.length : ℕ) : ℚ) = spec_recall resume_skills job_skills := by
    rw [hmax, spec_recall]
  have hp : (if resume_skills = [] then (0:ℚ)
        else ((job_skills.filter (fun j => resume_skills.contains j)).length : ℚ)
          / ((max 1 (dedupFirst resume_skills).length : ℕ) : ℚ))
      = spec_precision resume_skills job_skills := by
    unfold spec_precision
    split
    · rfl
    · next hne =>
      have hd : dedupFirst resume_skills ≠ [] := dedupFirst_ne_nil hne
      have : max 1 (dedupFirst resume_skills).length = (dedupFirst resume_skills).length := by
        have := List.length_pos.mpr hd
        omega
      rw [this]
  have hblend : (if spec_precision resume_skills job_skills + spec_recall resume_skills job_skills ≤ 0
        then (0:ℚ)
        else (2 * spec_precision resume_skills job_skills * spec_recall resume_skills job_skills)
          / (spec_precision resume_skills job_skills + spec_recall resume_skills job_skills))
      = spec_f1 (spec_precision resume_skills job_skills) (spec_recall resume_skills job_skills) := by
    have hp0 := spec_precision_nonneg resume_skills job_skills
    have hr0 := spec_recall_nonneg resume_skills job_skills
    unfold spec_f1
    by_cases hz : spec_precision resume_skills job_skills = 0 ∧ spec_recall resume_skills job_skills = 0
    · rw [if_pos hz, if_pos (by rw [hz.1, hz.2]; norm_num)]
    · have hpos : 0 < spec_precision resume_skills job_skills + spec_recall resume_skills job_skills := by
        rcases not_and_or.mp hz with hne | hne
        · have : 0 < spec_precision resume_skills job_skills := lt_of_le_of_ne hp0 (Ne.symm hne)
          linarith
        · have : 0 < spec_recall resume_skills job_skills := lt_of_le_of_ne hr0 (Ne.symm hne)
          linarith
      rw [if_neg hz, if_neg (not_le.mpr hpos)]
  have hmain : skills_overlap_score resume_skills job_skills =
      (clamp01 (spec_f1 (spec_precision resume_skills job_skills)
                        (spec_recall resume_skills job_skills)),
       (job_skills.filter (fun j => resume_skills.contains j)).take 12,
       (job_skills.filter (fun j => !(resume_skills.contains j))).take 8) := by
    unfold skills_overlap_score
    dsimp only
    rw [if_neg h]
    rw [hr, hp, hblend]
    rfl
  refine ⟨hmain, ?_, ?_, ?_, ?_⟩
  · rw [hmain]; exact clamp01_nonneg _
  · rw [hmain]; exact clamp01_le_one _
  · rw [hmain]
    simp [List.length_take]
  · rw [hmain]
    simp [List.length_take]

/-- C4 witness: the spec's concrete example, job tokens
{python, fastapi, sql} against resume tokens {python, fastapi, aws}. -/
theorem skills_overlap_score_spec_witness :
    (["python", "fastapi", "sql"] : List String) ≠ [] ∧
    skills_overlap_score ["python", "fastapi", "aws"] ["python", "fastapi", "sql"]
      = (2/3, ["python", "fastapi"], ["sql"]) := by
  have h := (skills_overlap_score_spec ["python", "fastapi", "aws"]
    ["python", "fastapi", "sql"] (by decide)).1
  have hfil : List.filter (fun j => (["python", "fastapi", "aws"] : List String).contains j)
      ["python", "fastapi", "sql"] = ["python", "fastapi"] := by decide
  have hded : dedupFirst (["python", "fastapi", "aws"] : List String)
      = ["python", "fastapi", "aws"] := by decide
  have hrec : spec_recall ["python", "fastapi", "aws"] ["python", "fastapi", "sql"] = 2/3 := by
    unfold spec_recall
    rw [hfil]
    norm_num
  have hprec : spec_precision ["python", "fastapi", "aws"] ["python", "fastapi", "sql"] = 2/3 := by
    unfold spec_precision
    rw [if_neg (by decide), hfil, hded]
    norm_num
  have hf1 : spec_f1 (2/3 : ℚ) (2/3) = 2/3 := by
    unfold spec_f1
    norm_num
  have hcl : clamp01 (2/3 : ℚ) = 2/3 := by
    unfold clamp01
    norm_num
  refine ⟨by decide, ?_⟩
  rw [h, hrec, hprec, hf1, hcl]
  simp only [Prod.mk.injEq]
  exact ⟨trivial, by decide, by decide⟩

/-! ### A model of Python json.loads for the structured resume payloads

JSON numbers are modelled as exact rationals (Python parses them to
floats; the rounding of decimal literals to binary floats is outside the
model, which only feeds truthiness tests and display strings here).
-/

inductive Json where
  | null : Json
  | bool : Bool → Json
  | num : Bool → ℚ → Json
  | str : String → Json
  | arr : List Json → Json
  | obj : List (String × Json) → Json
  | inf : Bool → Json
  | nan : Json

/-- Python truthiness of a JSON-derived value. -/
def truthy : Json → Bool
  | .null => false
  | .bool b => b
  | .num _ q => if q = 0 then false else true
  | .str s => s ≠ ""
  | .arr l => !l.isEmpty
  | .obj kvs => !kvs.isEmpty
  | .inf _ => true
  | .nan => true

/-- Python `x or default` on JSON-derived values. -/
def pyOrJson (j d : Json) : Json :=
  if truthy j then j else d

/-- Insert into a Python dict: an existing key keeps its position and gets
the new value, a new key goes to the end. -/
def objInsert : List (String × Json) → String → Json → List (String × Json)
  | [], k, v => [(k, v)]
  | (k0, v0) :: rest, k, v =>
    if k0 = k then (k0, v) :: rest else (k0, v0) :: objInsert rest k v

/-- Python `dict.get(k)` (None when absent). -/
def dictGet (kvs : List (String × Json)) (k : String) : Json :=
  match kvs.find? (fun p => p.1 == k) with
  | some p => p.2
  | none => Json.null

/-- JSON whitespace accepted by `json.loads`. -/
def skipWs : List Char → List Char
  | [] => []
  | c :: cs =>
    if c = ' ' || c = '\t' || c = '\n' || c = '\x0d' then skipWs cs else c :: cs

def hexVal (c : Char) : Option Nat :=
  if c.isDigit then some (c.toNat - 48)
  else if 'a' ≤ c ∧ c ≤ 'f' then some (c.toNat - 87)
  else if 'A' ≤ c ∧ c ≤ 'F' then some (c.toNat - 55)
  else none

/-- Body of a JSON string after the opening quote, strict mode: escapes
decoded, raw control characters rejected, surrogate pairs combined (lone
surrogates, unrepresentable in Lean, become U+FFFD). -/
def parseStringBody : Nat → List Char → List Char → Option (String × List Char)
  | 0, _, _ => none
  | _+1, [], _ => none
  | fuel+1, c :: cs, acc =>
    if c = '"' then some (⟨acc.reverse⟩, cs)
    else if c = '\\' then
      match cs with
      | [] => none
      | e :: cs2 =>
        if e = '"' then parseStringBody fuel cs2 ('"' :: acc)
        else if e = '\\' then parseStringBody fuel cs2 ('\\' :: acc)
        else if e = '/' then parseStringBody fuel cs2 ('/' :: acc)
        else if e = 'b' then parseStringBody fuel cs2 ('\x08' :: acc)
        else if e = 'f' then parseStringBody fuel cs2 ('\x0c' :: acc)
        else if e = 'n' then parseStringBody fuel cs2 ('\n' :: acc)
        else if e = 'r' then parseStringBody fuel cs2 ('\x0d' :: acc)
        else if e = 't' then parseStringBody fuel cs2 ('\t' :: acc)
        else if e = 'u' then
          match cs2 with
          | h1 :: h2 :: h3 :: h4 :: cs3 =>
            match hexVal h1, hexVal h2, hexVal h3, hexVal h4 with
            | some a, some b, some c2, some d =>
              let n := ((a * 16 + b) * 16 + c2) * 16 + d
              if 0xD800 ≤ n ∧ n ≤ 0xDBFF then
                match cs3 with
                | '\\' :: 'u' :: g1 :: g2 :: g3 :: g4 :: cs4 =>
                  match hexVal g1, hexVal g2, hexVal g3, hexVal g4 with
                  | some a2, some b2, some c3, some d2 =>
                    let m := ((a2 * 16 + b2) * 16 + c3) * 16 + d2
                    if 0xDC00 ≤ m ∧ m ≤ 0xDFFF then
                      let cp := 0x10000 + (n - 0xD800) * 0x400 + (m - 0xDC00)
                      parseStringBody fuel cs4 (Char.ofNat cp :: acc)
                    else parseStringBody fuel cs3 (Char.ofNat 0xFFFD :: acc)
                  | _, _, _, _ => none
                | _ => parseStringBody fuel cs3 (Char.ofNat 0xFFFD :: acc)
              else if 0xDC00 ≤ n ∧ n ≤ 0xDFFF then
                parseStringBody fuel cs3 (Char.ofNat 0xFFFD :: acc)
              else
                parseStringBody fuel cs3 (Char.ofNat n :: acc)
            | _, _, _, _ => none
          | _ => none
        else none
    else if c.toNat < 0x20 then none
    else parseStringBody fuel cs (c :: acc)

def digitsVal (l : List Char) : ℕ :=
  l.foldl (fun a c => a * 10 + (c.toNat - 48)) 0

/-- JSON number grammar of `json.loads`:
`-?(0|[1-9][0-9]*)(\.[0-9]+)?([eE][+-]?[0-9]+)?`, evaluated exactly. -/
def parseNumber (l : List Char) : Option (Json × List Char) :=
  let neg : Bool := match l with | '-' :: _ => true | _ => false
  let l1 := if neg then l.drop 1 else l
  match l1 with
  | [] => none
  | c :: _ =>
    if !c.isDigit then none
    else
      let ipDigits := if c = '0' then [c] else l1.takeWhile Char.isDigit
      let l2 := if c = '0' then l1.drop 1 else l1.dropWhile Char.isDigit
      let fracDigits :=
        match l2 with
        | '.' :: r =>
          let fd := r.takeWhile Char.isDigit
          if fd.isEmpty then [] else fd
        | _ => []
      let l3 :=
        match l2 with
        | '.' :: r =>
          let fd := r.takeWhile Char.isDigit
          if fd.isEmpty then l2 else r.dropWhile Char.isDigit
        | _ => l2
      let expPart : Bool × List Char × List Char :=
        match l3 with
        | e :: r =>
          if e = 'e' || e = 'E' then
            match r with
            | s :: r2 =>
              if s = '+' || s = '-' then
                let ed := r2.takeWhile Char.isDigit
                if ed.isEmpty then (false, [], l3)
                else (s = '-', ed, r2.dropWhile Char.isDigit)
              else
                let ed := r.takeWhile Char.isDigit
                if ed.isEmpty then (false, [], l3)
                else (false, ed, r.dropWhile Char.isDigit)
            | [] => (false, [], l3)
          else (false, [], l3)
        | [] => (false, [], l3)
      let expNeg := expPart.1
      let expDigits := expPart.2.1
      let l4 := expPart.2.2
      let isInt : Bool := fracDigits.isEmpty && expDigits.isEmpty
      let mant0 : ℤ := (digitsVal (ipDigits ++ fracDigits) : ℤ)
      let mant : ℤ := if neg then -mant0 else mant0
      let e10 : ℤ :=
        (if expNeg then -(digitsVal expDigits : ℤ) else (digitsVal expDigits : ℤ))
          - (fracDigits.length : ℤ)
      let q : ℚ :=
        if 0 ≤ e10 then mkRat (mant * (10 ^ e10.toNat)) 1
        else mkRat mant (10 ^ (-e10).toNat)
      some (Json.num isInt q, l4)

mutual

def parseVal : Nat → List Char → Option (Json × List Char)
  | 0, _ => none
  | fuel+1, l =>
    let l1 := skipWs l
    match l1 with
    | [] => none
    | c :: cs =>
      if c = '\x7b' then parseObjItems fuel cs []
      else if c = '[' then parseArrItems fuel cs []
      else if c = '"' then
        (parseStringBody (cs.length + 1) cs []).map (fun p => (Json.str p.1, p.2))
      else if "true".data.isPrefixOf l1 then some (Json.bool true, l1.drop 4)
      else if "false".data.isPrefixOf l1 then some (Json.bool false, l1.drop 5)
      else if "null".data.isPrefixOf l1 then some (Json.null, l1.drop 4)
      else if "NaN".data.isPrefixOf l1 then some (Json.nan, l1.drop 3)
      else if "Infinity".data.isPrefixOf l1 then some (Json.inf false, l1.drop 8)
      else if "-Infinity".data.isPrefixOf l1 then some (Json.inf true, l1.drop 9)
      else parseNumber l1

def parseArrItems : Nat → List Char → List Json → Option (Json × List Char)
  | 0, _, _ => none
  | fuel+1, l, acc =>
    let l1 := skipWs l
    match l1 with
    | [] => none
    | c :: cs =>
      if c = ']' then
        if acc.isEmpty then some (Json.arr [], cs) else none
      else
        match parseVal fuel l1 with
        | none => none
        | some (v, r) =>
          match skipWs r with
          | ',' :: r2 => parseArrItems fuel r2 (v :: acc)
          | ']' :: r2 => some (Json.arr (v :: acc).reverse, r2)
          | _ => none

def parseObjItems : Nat → List Char → List (String × Json) → Option (Json × List Char)
  | 0, _, _ => none
  | fuel+1, l, acc =>
    let l1 := skipWs l
    match l1 with
    | '\x7d' :: rest => if acc.isEmpty then some (Json.obj [], rest) else none
    | '"' :: cs =>
      match parseStringBody (cs.length + 1) cs [] with
      | none => none
      | some (k, r) =>
        match skipWs r with
        | ':' :: r2 =>
          match parseVal fuel r2 with
          | none => none
          | some (v, r3) =>
            match skipWs r3 with
            | ',' :: r5 => parseObjItems fuel r5 (objInsert acc k v)
            | '\x7d' :: r5 => some (Json.obj (objInsert acc k v), r5)
            | _ => none
        | _ => none
    | _ => none

end

/-- Model of `json.loads`: parse one value, allow trailing whitespace only. -/
def json_loads (s : String) : Option Json :=
  match parseVal (2 * s.length + 2) s.data with
  | some (j, rest) => if (skipWs rest).isEmpty then some j else none
  | none => none

mutual

/-- Model of Python `repr` on JSON-derived values (float formatting is
approximated by exact-rational rendering; the scoring paths only ever
apply it to strings and integers). -/
def pyRepr : Json → String
  | .null => "None"
  | .bool b => if b then "True" else "False"
  | .num isInt q =>
    if isInt then toString q.num
    else if q.den = 1 then toString q.num ++ ".0"
    else toString q.num ++ "/" ++ toString q.den
  | .str s => "\x27" ++ s ++ "\x27"
  | .arr l => "[" ++ ", ".intercalate (pyReprList l) ++ "]"
  | .obj kvs => "\x7b" ++ ", ".intercalate (pyReprPairs kvs) ++ "\x7d"
  | .inf n => if n then "-inf" else "inf"
  | .nan => "nan"

def pyReprList : List Json → List String
  | [] => []
  | j :: js => pyRepr j :: pyReprList js

def pyReprPairs : List (String × Json) → List String
  | [] => []
  | (k, v) :: rest => ("\x27" ++ k ++ "\x27: " ++ pyRepr v) :: pyReprPairs rest

end

/-- Model of Python `str` on JSON-derived values. -/
def pyStr (j : Json) : String :=
  match j with
  | .str s => s
  | _ => pyRepr j

/-! ### scoring_engine.py: structured-payload extraction and composition -/

inductive PyExn where
  | attributeError : PyExn
  | valueError : PyExn
  | overflowError : PyExn
deriving DecidableEq

/-- Python attribute access `j.get(k)`: works on dicts, raises
`AttributeError` on any other (truthy) value. -/
def getAttrGet (j : Json) (k : String) : Except PyExn Json :=
  match j with
  | .obj kvs => .ok (dictGet kvs k)
  | _ => .error .attributeError

/-- `structured_json or ai_structured_json or ""`. -/
def selectRaw (structured_json ai_structured_json : Option String) : String :=
  pyOrStr structured_json (pyOrStr ai_structured_json "")

def jsonIsNull : Json → Bool
  | .null => true
  | _ => false

/-- The per-item loop of `extract_resume_skills`: canonicalize, add the
phrase and (for multi-word phrases) its words, first-seen deduplication.
State is (seen, out). -/
def skillCandsFold (acc : List String × List String) (it : Json) :
    List String × List String :=
  let n := _canonical_skill (pyStr it)
  if n = "" then acc
  else
    let cands := n :: (if pyInStr " " n then (splitOnChar ' ' n).filter (fun p => p ≠ "") else [])
    cands.foldl
      (fun (a : List String × List String) c =>
        if c = "" then a
        else if a.1.contains c then a
        else (c :: a.1, a.2 ++ [c]))
      acc

/-- `scoring_engine.extract_resume_skills`. -/
def extract_resume_skills (structured_json ai_structured_json : Option String) :
    Except PyExn (List String) :=
  let raw := selectRaw structured_json ai_structured_json
  if raw = "" then .ok []
  else
    match json_loads raw with
    | none => .ok []
    | some payload => do
      let sections ← getAttrGet (pyOrJson payload (Json.obj [])) "sections"
      let skills ← getAttrGet (pyOrJson sections (Json.obj [])) "skills"
      let itemsRaw ← getAttrGet (pyOrJson skills (Json.obj [])) "items"
      match pyOrJson itemsRaw (Json.arr []) with
      | .arr l => pure ((l.foldl skillCandsFold ([], [])).2)
      | _ => pure []

/-- `scoring_engine.extract_resume_experience_text`. -/
def extract_resume_experience_text (structured_json ai_structured_json : Option String) :
    Except PyExn String :=
  let raw := selectRaw structured_json ai_structured_json
  if raw = "" then .ok ""
  else
    match json_loads raw with
    | none => .ok ""
    | some payload => do
      let sections ← getAttrGet (pyOrJson payload (Json.obj [])) "sections"
      let expRaw ← getAttrGet (pyOrJson sections (Json.obj [])) "experience"
      let exp := pyOrJson expRaw (Json.obj [])
      let textVal ← getAttrGet exp "text"
      let txt := pyStr (pyOrJson textVal (Json.str ""))
      let itemsVal ← getAttrGet exp "items"
      match pyOrJson itemsVal (Json.arr []) with
      | .arr l =>
        if !l.isEmpty then
          let joined := String.intercalate "\n" ((l.filter (fun x => !(jsonIsNull x))).map pyStr)
          pure (pyStrip (pyStrip (txt ++ "\n" ++ joined)))
        else pure (pyStrip txt)
      | _ => pure (pyStrip txt)

/-- `scoring_engine.extract_resume_education_text`. -/
def extract_resume_education_text (structured_json ai_structured_json : Option String) :
    Except PyExn String :=
  let raw := selectRaw structured_json ai_structured_json
  if raw = "" then .ok ""
  else
    match json_loads raw with
    | none => .ok ""
    | some payload => do
      let sections ← getAttrGet (pyOrJson payload (Json.obj [])) "sections"
      let eduRaw ← getAttrGet (pyOrJson sections (Json.obj [])) "education"
      let edu := pyOrJson eduRaw (Json.obj [])
      let textVal ← getAttrGet edu "text"
      let txt := pyStr (pyOrJson textVal (Json.str ""))
      let itemsVal ← getAttrGet edu "items"
      match pyOrJson itemsVal (Json.arr []) with
      | .arr l =>
        if !l.isEmpty then
          let joined := String.intercalate "\n" ((l.filter (fun x => !(jsonIsNull x))).map pyStr)
          pure (pyStrip (pyStrip (txt ++ "\n" ++ joined)))
        else pure (pyStrip txt)
      | _ => pure (pyStrip txt)

/-- The token-set loop of `experience_relevance_score`: strip dots, skip
stop words, first-seen set capped at 800 entries (`break` after the add
that reaches 800). -/
def buildExpTokens : List String → List String → List String
  | [], acc => acc
  | w0 :: rest, acc =>
    let w : String := ⟨stripChars (fun c => c = '.') w0.data⟩
    if w = "" || _STOP.contains w then buildExpTokens rest acc
    else
      let acc2 := if acc.contains w then acc else acc ++ [w]
      if 800 ≤ acc2.length then acc2 else buildExpTokens rest acc2

/-- `scoring_engine.experience_relevance_score`. -/
def experience_relevance_score (job_tokens : List String) (experience_text : String) : ℚ :=
  let et := pyStrip (strLower experience_text)
  if et = "" || job_tokens.isEmpty then 0
  else
    let exp_tokens := buildExpTokens (wordFinditer et) []
    if exp_tokens.isEmpty then 0
    else
      let overlap : ℕ := (job_tokens.filter (fun t => exp_tokens.contains t)).length
      let overlap_ratio : ℚ := (overlap : ℚ) / (max 1 job_tokens.length : ℕ)
      let length_factor : ℚ := min 1 (max 0 ((et.length : ℚ) / 900))
      let score : ℚ := 0.7 * overlap_ratio + 0.3 * length_factor
      if score < 0 then 0
      else if score > 1 then 1
      else score

/-- `scoring_engine.education_relevance_score`. -/
def education_relevance_score (job_title job_description : Option String)
    (education_text : String) : ℚ :=
  let txt := pyStrip (strLower education_text)
  if txt = "" then 0
  else
    let degree_hits : ℕ :=
      (["b.tech", "btech", "b.e", "be ", "bachelor", "m.tech", "mtech",
        "master", "computer science", "engineering"].filter
          (fun kw => pyInStr kw txt)).length
    let cert_hits : ℕ :=
      (["certification", "certified", "course", "bootcamp", "specialization"].filter
          (fun kw => pyInStr kw txt)).length
    let job_text := strLower ((pyOrStr job_title "") ++ " " ++ (pyOrStr job_description ""))
    let stem_overlap : ℕ :=
      (["backend", "api", "cloud", "data", "python", "java", "javascript",
        "sql", "devops"].filter
          (fun st => pyInStr st txt && pyInStr st job_text)).length
    let score : ℚ := 0.35 * min 1 ((degree_hits : ℚ) / 3)
      + 0.15 * min 1 ((cert_hits : ℚ) / 2)
      + 0.50 * min 1 ((stem_overlap : ℚ) / 4)
    if score < 0 then 0
    else if score > 1 then 1
    else score

/-- The breakdown dict returned by `score_application`. -/
structure Breakdown where
  weights : List (String × ℚ)
  semantic_score : ℚ
  skills_score : ℚ
  experience_score : ℚ
  education_score : ℚ
  ai_reasoning_score : ℚ
  ai_relevance_score : ℚ
  matched_skills : List String
  missing_skills : List String
  notes : List String

/-- Python falsiness of an optional string. -/
def strFalsy (o : Option String) : Bool :=
  match o with
  | none => true
  | some s => s = ""

/-- `scoring_engine.score_application`. -/
def score_application (job_title job_description : Option String)
    (job_required_skills : Option (List String))
    (resume_structured_json resume_ai_structured_json : Option String)
    (semantic_score : ℚ) (ai_relevance_pct : Option ℤ) :
    Except PyExn (ℚ × ℤ × Breakdown) := do
  let resume_skills ← extract_resume_skills resume_structured_json resume_ai_structured_json
  let job_skills := extract_job_skill_tokens job_title job_description job_required_skills
  let sres := skills_overlap_score resume_skills job_skills
  let skills_score := sres.1
  let matched := sres.2.1
  let missing := sres.2.2
  let exp_text ← extract_resume_experience_text resume_structured_json resume_ai_structured_json
  let experience_score := experience_relevance_score job_skills exp_text
  let edu_text ← extract_resume_education_text resume_structured_json resume_ai_structured_json
  let education_score := education_relevance_score job_title job_description edu_text
  let ai_score : Option ℤ := ai_relevance_pct.map (fun n => max 0 (min 100 n))
  let ai_reasoning_score : ℚ :=
    match ai_score with
    | some n => (n : ℚ) / 100
    | none => 0
  let final_score := compute_final_score semantic_score skills_score
    experience_score education_score ai_reasoning_score
  let notes : List String :=
    (if strFalsy resume_structured_json && strFalsy resume_ai_structured_json then
      ["No structured resume skills available; skills_score may be low."] else [])
    ++ (if job_skills.isEmpty then
      ["Could not extract skill tokens from job description."] else [])
    ++ (if ai_score.isNone then
      ["No AI reasoning score available; ai_reasoning_score set to 0."] else [])
  pure (skills_score, final_score,
    { weights := [("ai_reasoning", 0.45), ("skills", 0.20), ("experience", 0.15),
        ("education", 0.10), ("semantic", 0.10)]
      semantic_score := semantic_score
      skills_score := skills_score
      experience_score := experience_score
      education_score := education_score
      ai_reasoning_score := ai_reasoning_score
      ai_relevance_score := ai_reasoning_score
      matched_skills := matched
      missing_skills := missing
      notes := notes })

/-- C2: the scoring engine is a deterministic pure function of its
argument tuple: equal inputs produce equal
(skills_score, final_score, breakdown) results. -/
theorem score_application_deterministic
    (jt1 jt2 jd1 jd2 : Option String) (rs1 rs2 : Option (List String))
    (sj1 sj2 aj1 aj2 : Option String) (sem1 sem2 : ℚ) (ai1 ai2 : Option ℤ)
    (h1 : jt1 = jt2) (h2 : jd1 = jd2) (h3 : rs1 = rs2) (h4 : sj1 = sj2)
    (h5 : aj1 = aj2) (h6 : sem1 = sem2) (h7 : ai1 = ai2) :
    score_application jt1 jd1 rs1 sj1 aj1 sem1 ai1
      = score_application jt2 jd2 rs2 sj2 aj2 sem2 ai2 := by
  subst h1
  subst h2
  subst h3
  subst h4
  subst h5
  subst h6
  subst h7
  rfl

/-- C2 witness: two calls on the identical concrete argument tuple agree. -/
theorem score_application_deterministic_witness :
    score_application (some "Backend Engineer") (some "python and sql work")
        (some ["python", "sql"]) (some "not json") none 0.5 (some 88)
      = score_application (some "Backend Engineer") (some "python and sql work")
        (some ["python", "sql"]) (some "not json") none 0.5 (some 88) :=
  score_application_deterministic _ _ _ _ _ _ _ _ _ _ _ _ _ _
    rfl rfl rfl rfl rfl rfl rfl

/-- `j` is safe for the `(j or \x7b\x7d).get(...)` idiom: a dict, or falsy. -/
def dictLike (j : Json) : Bool :=
  match j with
  | .obj _ => true
  | _ => !truthy j

/-- Total model of `(j or \x7b\x7d).get(k)` on `dictLike` values. -/
def softGet (j : Json) (k : String) : Json :=
  match pyOrJson j (Json.obj []) with
  | .obj kvs => dictGet kvs k
  | _ => Json.null

theorem getAttrGet_of_falsy (j : Json) (k : String) (h : truthy j = false) :
    getAttrGet (pyOrJson j (Json.obj [])) k = .ok Json.null := by
  simp [pyOrJson, h, getAttrGet, dictGet]

theorem getAttrGet_dictLike (p : Json) (k : String) (hp : dictLike p = true) :
    getAttrGet (pyOrJson p (Json.obj [])) k = .ok (softGet p k) := by
  cases p with
  | obj kvs =>
    cases kvs with
    | nil => simp [pyOrJson, truthy, getAttrGet, softGet, dictGet]
    | cons a l => simp [pyOrJson, truthy, getAttrGet, softGet, dictGet]
  | num isInt q =>
    simp only [dictLike, truthy] at hp
    split at hp
    · simp_all [pyOrJson, truthy, getAttrGet, softGet, dictGet]
    · simp at hp
  | _ => simp_all [dictLike, pyOrJson, truthy, getAttrGet, softGet, dictGet]

theorem extract_empty_of_parse_fail (s1 s2 : Option String)
    (h : json_loads (selectRaw s1 s2) = none) :
    extract_resume_skills s1 s2 = .ok [] ∧
    extract_resume_experience_text s1 s2 = .ok "" ∧
    extract_resume_education_text s1 s2 = .ok "" := by
  refine ⟨?_, ?_, ?_⟩ <;>
    simp only [extract_resume_skills, extract_resume_experience_text,
      extract_resume_education_text] <;>
    split <;> simp [h]

theorem extract_empty_of_no_sections (s1 s2 : Option String) (p : Json)
    (h : json_loads (selectRaw s1 s2) = some p)
    (hp : dictLike p = true)
    (hs : truthy (softGet p "sections") = false) :
    extract_resume_skills s1 s2 = .ok [] ∧
    extract_resume_experience_text s1 s2 = .ok "" ∧
    extract_resume_education_text s1 s2 = .ok "" := by
  have hsec := getAttrGet_dictLike p "sections" hp
  refine ⟨?_, ?_, ?_⟩
  · simp only [extract_resume_skills]
    split
    · rfl
    · rw [h]
      simp only [bind, Except.bind, hsec, getAttrGet_of_falsy _ _ hs]
      simp [pyOrJson, truthy, getAttrGet, dictGet, skillCandsFold, pure, Except.pure]
  · simp only [extract_resume_experience_text]
    split
    · rfl
    · rw [h]
      simp only [bind, Except.bind, hsec, getAttrGet_of_falsy _ _ hs]
      simp [pyOrJson, truthy, getAttrGet, dictGet, pyStr, pyRepr, pyStrip,
        stripChars, stripLeftChars, pure, Except.pure]
  · simp only [extract_resume_education_text]
    split
    · rfl
    · rw [h]
      simp only [bind, Except.bind, hsec, getAttrGet_of_falsy _ _ hs]
      simp [pyOrJson, truthy, getAttrGet, dictGet, pyStr, pyRepr, pyStrip,
        stripChars, stripLeftChars, pure, Except.pure]

/-- C10 counterexample: `"[1]"` is valid JSON that merely lacks the
expected structure, yet all three extractors raise `AttributeError`
(`list.get` does not exist), and `score_application` propagates it. -/
theorem extract_raises_on_json_list_payload :
    json_loads (selectRaw (some "[1]") none) = some (Json.arr [Json.num true 1]) ∧
    extract_resume_skills (some "[1]") none = .error .attributeError ∧
    extract_resume_skills (some "[1]") none ≠ .ok [] ∧
    extract_resume_experience_text (some "[1]") none = .error .attributeError ∧
    extract_resume_education_text (some "[1]") none = .error .attributeError ∧
    score_application (some "t") (some "d") none (some "[1]") none 0 none
      = .error .attributeError := by
  refine ⟨rfl, rfl, ?_, rfl, rfl, rfl⟩
  intro hcon
  exact Except.noConfusion hcon

/-- C10 amended: when the selected payload fails to parse as JSON all
three extractors return empty results without raising, and
`score_application` completes; when it parses but every accessed level is
a dict (or falsy) and no `sections` structure is present, the extractors
likewise return empty results.  (A truthy non-dict level such as the
payload `"[1]"` instead raises `AttributeError` — see the
counterexample.) -/
theorem extract_on_corrupt_json (s1 s2 : Option String) :
    (json_loads (selectRaw s1 s2) = none →
      extract_resume_skills s1 s2 = .ok [] ∧
      extract_resume_experience_text s1 s2 = .ok "" ∧
      extract_resume_education_text s1 s2 = .ok "") ∧
    (∀ p, json_loads (selectRaw s1 s2) = some p → dictLike p = true →
      truthy (softGet p "sections") = false →
      extract_resume_skills s1 s2 = .ok [] ∧
      extract_resume_experience_text s1 s2 = .ok "" ∧
      extract_resume_education_text s1 s2 = .ok "") ∧
    (json_loads (selectRaw s1 s2) = none →
      ∀ jt jd rq sem ai, ∃ out,
        score_application jt jd rq s1 s2 sem ai = .ok out ∧
        out.1 = (skills_overlap_score [] (extract_job_skill_tokens jt jd rq)).1) := by
  refine ⟨extract_empty_of_parse_fail s1 s2,
    fun p hp hd hs => extract_empty_of_no_sections s1 s2 p hp hd hs, ?_⟩
  intro h jt jd rq sem ai
  obtain ⟨h1, h2, h3⟩ := extract_empty_of_parse_fail s1 s2 h
  simp only [score_application, bind, Except.bind, h1, h2, h3]
  exact ⟨_, rfl, rfl⟩

/-- C10 witness: the string "oops" fails to parse, so the extractors
return empty values and scoring completes on it. -/
theorem extract_on_corrupt_json_witness :
    json_loads (selectRaw (some "oops") none) = none ∧
    extract_resume_skills (some "oops") none = .ok [] ∧
    extract_resume_experience_text (some "oops") none = .ok "" ∧
    extract_resume_education_text (some "oops") none = .ok "" ∧
    (∃ out, score_application (some "t") (some "python work") none
        (some "oops") none 0.5 (some 88) = .ok out ∧
      out.1 = (skills_overlap_score []
        (extract_job_skill_tokens (some "t") (some "python work") none)).1) := by
  have h := extract_on_corrupt_json (some "oops") none
  obtain ⟨h1, h2, h3⟩ := h.1 rfl
  exact ⟨rfl, h1, h2, h3, h.2.2 rfl (some "t") (some "python work") none 0.5 (some 88)⟩

/-! ### resume_parsing.py: skill normalization -/

/-- The two line-ending replaces of `_normalize_line`:
`\r\n` → `\n` then `\r` → `\n`, left to right. -/
def replaceCRLF : List Char → List Char
  | [] => []
  | '\x0d' :: '\n' :: rest => '\n' :: replaceCRLF rest
  | '\x0d' :: rest => '\n' :: replaceCRLF rest
  | c :: rest => c :: replaceCRLF rest

/-- `_LINE_CLEAN_RE.sub(" ", s)`: collapse `[\t ]{2,}` runs to one space. -/
def collapseBlankRuns (l : List Char) : List Char :=
  mapRuns (fun c => c = '\t' || c = ' ')
    (fun r => if 2 ≤ r.length then [' '] else r) l

/-- `resume_parsing._normalize_line`. -/
def _normalize_line (s : String) : String :=
  pyStrip ⟨collapseBlankRuns (replaceCRLF s.data)⟩

/-- Python `str.isupper` (ASCII): at least one letter, no lowercase letter. -/
def pyIsUpper (s : String) : Bool :=
  s.data.any (fun c => c.isAlpha) && s.data.all (fun c => !c.isAlpha || c.isUpper)

/-- The version-token regex `^[A-Za-z]{1,6}\d+(\.\d+)?$`. -/
def isVersionLike (s : String) : Bool :=
  let l := s.data
  let letters := l.takeWhile Char.isAlpha
  let rest := l.dropWhile Char.isAlpha
  let digits := rest.takeWhile Char.isDigit
  let rest2 := rest.dropWhile Char.isDigit
  decide (1 ≤ letters.length) && decide (letters.length ≤ 6)
    && decide (1 ≤ digits.length)
    && (rest2.isEmpty ||
      (match rest2 with
       | '.' :: ds => !ds.isEmpty && ds.all Char.isDigit
       | _ => false))

/-- The single-token regex `^[A-Za-z0-9+#.]+$`. -/
def isSingleTokenRe (s : String) : Bool :=
  !s.data.isEmpty && s.data.all isWordChar

/-- Python `str.isalpha` (ASCII). -/
def pyIsAlpha (s : String) : Bool :=
  !s.data.isEmpty && s.data.all Char.isAlpha

/-- Python `str.capitalize` (ASCII). -/
def pyCapitalize (s : String) : String :=
  match s.data with
  | [] => ""
  | c :: cs => ⟨c.toUpper :: cs.map Char.toLower⟩

/-- The acronym set of `normalize_skills` (note: it includes "apis"). -/
def knownAcronyms : List String :=
  ["api", "apis", "sql", "aws", "gcp", "ml", "ai", "ci", "cd"]

/-- Bullet/dash strip of `normalize_skills`:
`_normalize_line(raw).strip(" -\u2022").strip()`. -/
def bulletStrip (raw : String) : String :=
  pyStrip ⟨stripChars (fun c => c = ' ' || c = '-' || c = '•')
    (_normalize_line raw).data⟩

/-- Noise removal of `normalize_skills`: replace runs outside
`[A-Za-z0-9+#. ]` by one space, strip, collapse blank runs. -/
def noiseClean (t : String) : String :=
  ⟨collapseBlankRuns
    (pyStrip ⟨mapRuns (fun c => !(isWordChar c || c = ' '))
      (fun r => if r.isEmpty then [] else [' ']) t.data⟩).data⟩

/-- Case branch of `normalize_skills` as the code writes it. -/
def normSkillCase (s : String) : String :=
  if pyIsUpper s then s
  else if isVersionLike s then s
  else if isSingleTokenRe s then
    (if knownAcronyms.contains (strLower s) then strUpper s else s)
  else
    String.intercalate " " ((splitOnChar ' ' s).map
      (fun w => if pyIsAlpha w then pyCapitalize w else w))

/-- One loop iteration of `normalize_skills`; state is (seen keys, out). -/
def normSkillStep (st : List String × List String) (raw : String) :
    List String × List String :=
  let s2 := bulletStrip raw
  if s2 = "" then st
  else
    let s := noiseClean s2
    if s.length < 2 || 40 < s.length then st
    else
      let norm := normSkillCase s
      let key := strLower norm
      if st.1.contains key then st
      else (st.1 ++ [key], st.2 ++ [norm])

/-- `resume_parsing.normalize_skills`. -/
def normalize_skills (items : List String) : List String :=
  (items.foldl normSkillStep ([], [])).2

/-- The case rule exactly as the C9 claim sentence states it: preserve
all-caps and version-like tokens, uppercase the acronyms
(api, sql, aws, gcp, ml, ai, ci, cd), title-case each word otherwise. -/
def claimSkillCase (s : String) : String :=
  if pyIsUpper s then s
  else if isVersionLike s then s
  else if ["api", "sql", "aws", "gcp", "ml", "ai", "ci", "cd"].contains (strLower s) then
    strUpper s
  else
    String.intercalate " " ((splitOnChar ' ' s).map pyCapitalize)

def claimNormSkillStep (st : List String × List String) (raw : String) :
    List String × List String :=
  let s2 := bulletStrip raw
  if s2 = "" then st
  else
    let s := noiseClean s2
    if s.length < 2 || 40 < s.length then st
    else
      let norm := claimSkillCase s
      let key := strLower norm
      if st.1.contains key then st
      else (st.1 ++ [key], st.2 ++ [norm])

/-- `normalize_skills` as the C9 claim describes it. -/
def claim_normalize_skills (items : List String) : List String :=
  (items.foldl claimNormSkillStep ([], [])).2

/-- Amended case rule: single tokens (no space) keep their case except
the nine acronyms (api, apis, sql, aws, gcp, ml, ai, ci, cd), which are
uppercased; only multi-word tokens are capitalized, and only on their
purely alphabetic words. -/
def amendedSkillCase (s : String) : String :=
  if pyIsUpper s then s
  else if isVersionLike s then s
  else if !(pyInStr " " s) then
    (if knownAcronyms.contains (strLower s) then strUpper s else s)
  else
    String.intercalate " " ((splitOnChar ' ' s).map
      (fun w => if pyIsAlpha w then pyCapitalize w else w))

def amendedNormSkillStep (st : List String × List String) (raw : String) :
    List String × List String :=
  let s2 := bulletStrip raw
  if s2 = "" then st
  else
    let s := noiseClean s2
    if s.length < 2 || 40 < s.length then st
    else
      let norm := amendedSkillCase s
      let key := strLower norm
      if st.1.contains key then st
      else (st.1 ++ [key], st.2 ++ [norm])

/-- `normalize_skills` as the amended C9 claim describes it. -/
def amended_normalize_skills (items : List String) : List String :=
  (items.foldl amendedNormSkillStep ([], [])).2

theorem containsSub_singleton (c : Char) (l : List Char) :
    containsSub [c] l = l.contains c := by
  induction l with
  | nil => rfl
  | cons a as ih =>
    simp only [containsSub, List.isPrefixOf, List.contains_cons, ih]
    by_cases h : c = a
    · subst h
      simp [List.isPrefixOf]
    · have h2 : (c == a) = false := by simpa using h
      have h3 : (a == c) = false := by simpa using Ne.symm h
      simp [h2, h3, List.isPrefixOf]

theorem stripLeftChars_all (p good : Char → Bool) (l : List Char)
    (hl : l.all good = true) : (stripLeftChars p l).all good = true := by
  induction l with
  | nil => exact hl
  | cons a as ih =>
    simp only [List.all_cons, Bool.and_eq_true] at hl
    simp only [stripLeftChars]
    split
    · exact ih hl.2
    · simp [List.all_cons, hl.1, hl.2]

theorem stripChars_all (p good : Char → Bool) (l : List Char)
    (hl : l.all good = true) : (stripChars p l).all good = true := by
  unfold stripChars
  rw [List.all_reverse]
  apply stripLeftChars_all
  rw [List.all_reverse]
  apply stripLeftChars_all
  exact hl

theorem mapRunsAux_all_keep (p good : Char → Bool) (f : List Char → List Char)
    (hkeep : ∀ c, p c = false → good c = true)
    (hf : ∀ r, r.all p = true → (f r).all good = true) :
    ∀ (l cur : List Char), cur.all p = true →
      (mapRunsAux p f l cur).all good = true := by
  intro l
  induction l with
  | nil =>
    intro cur hcur
    simp only [mapRunsAux]
    exact hf _ (by simpa using hcur)
  | cons c cs ih =>
    intro cur hcur
    simp only [mapRunsAux]
    split
    · next hc => exact ih (c :: cur) (by simp [List.all_cons, hc, hcur])
    · next hc =>
      rw [List.all_append]
      simp only [Bool.and_eq_true, List.all_cons]
      refine ⟨hf _ (by simpa using hcur), hkeep c (by simpa using hc), ih [] rfl⟩

theorem mapRuns_all_keep (p good : Char → Bool) (f : List Char → List Char)
    (hkeep : ∀ c, p c = false → good c = true)
    (hf : ∀ r, r.all p = true → (f r).all good = true) (l : List Char) :
    (mapRuns p f l).all good = true :=
  mapRunsAux_all_keep p good f hkeep hf l [] rfl

theorem mapRunsAux_all_pres (p good : Char → Bool) (f : List Char → List Char)
    (hf : ∀ r, r.all (fun c => p c && good c) = true → (f r).all good = true) :
    ∀ (l cur : List Char), l.all good = true →
      cur.all (fun c => p c && good c) = true →
      (mapRunsAux p f l cur).all good = true := by
  intro l
  induction l with
  | nil =>
    intro cur _ hcur
    simp only [mapRunsAux]
    exact hf _ (by simpa using hcur)
  | cons c cs ih =>
    intro cur hl hcur
    simp only [List.all_cons, Bool.and_eq_true] at hl
    simp only [mapRunsAux]
    split
    · next hc =>
      exact ih (c :: cur) hl.2 (by simp [List.all_cons, hc, hl.1, hcur])
    · next hc =>
      rw [List.all_append]
      simp only [Bool.and_eq_true, List.all_cons]
      exact ⟨hf _ (by simpa using hcur), hl.1, ih [] hl.2 rfl⟩

theorem mapRuns_all_pres (p good : Char → Bool) (f : List Char → List Char)
    (hf : ∀ r, r.all (fun c => p c && good c) = true → (f r).all good = true)
    (l : List Char) (hl : l.all good = true) :
    (mapRuns p f l).all good = true :=
  mapRunsAux_all_pres p good f hf l [] hl rfl

/-- Every character of a noise-cleaned skill token is in `[A-Za-z0-9+#. ]`. -/
theorem noiseClean_chars (t : String) :
    (noiseClean t).data.all (fun c => isWordChar c || c = ' ') = true := by
  show (collapseBlankRuns _).all _ = true
  unfold collapseBlankRuns
  apply mapRuns_all_pres
  · intro r hr
    split
    · simp
    · rw [List.all_eq_true] at hr ⊢
      intro c hc
      have h2 := hr c hc
      simp only [Bool.and_eq_true] at h2
      exact h2.2
  · show (pyStrip _).data.all _ = true
    apply stripChars_all
    apply mapRuns_all_keep
    · intro c hc
      cases hb : (isWordChar c || decide (c = ' ')) with
      | true => rfl
      | false => rw [hb] at hc; exact absurd hc (by decide)
    · intro r _
      split
      · rfl
      · simp

theorem singleToken_iff_no_space (s : String)
    (hall : s.data.all (fun c => isWordChar c || c = ' ') = true)
    (hne : s.data ≠ []) :
    isSingleTokenRe s = !(pyInStr " " s) := by
  have hcs : pyInStr " " s = s.data.contains ' ' := containsSub_singleton ' ' s.data
  rw [isSingleTokenRe, hcs]
  rw [List.all_eq_true] at hall
  by_cases hsp : s.data.contains ' ' = true
  · simp only [hsp, Bool.not_true]
    rw [List.contains_eq_any_beq, List.any_eq_true] at hsp
    obtain ⟨c, hc, hceq⟩ := hsp
    have hc2 : c = ' ' := Eq.symm (by simpa using hceq)
    have hfail : s.data.all isWordChar = false := by
      rw [List.all_eq_false]
      refine ⟨c, hc, ?_⟩
      rw [hc2]
      decide
    simp [hfail]
  · have hsp2 : s.data.contains ' ' = false := by simpa using hsp
    simp only [hsp2, Bool.not_false]
    have hall2 : s.data.all isWordChar = true := by
      rw [List.all_eq_true]
      intro c hc
      have h1 := hall c hc
      simp only [Bool.or_eq_true] at h1
      rcases h1 with h1 | h1
      · exact h1
      · exfalso
        have hc3 : c = ' ' := by simpa using h1
        rw [List.contains_eq_any_beq, List.any_eq_false] at hsp2
        have := hsp2 c hc
        rw [hc3] at this
        simp at this
    simp [hall2, hne]

theorem normSkillCase_eq_amended (s : String)
    (hall : s.data.all (fun c => isWordChar c || c = ' ') = true)
    (hne : s.data ≠ []) :
    normSkillCase s = amendedSkillCase s := by
  unfold normSkillCase amendedSkillCase
  rw [singleToken_iff_no_space s hall hne]

theorem normSkillStep_eq_amended (st : List String × List String) (raw : String) :
    normSkillStep st raw = amendedNormSkillStep st raw := by
  unfold normSkillStep amendedNormSkillStep
  dsimp only
  split
  · rfl
  · split
    · rfl
    · next h2 =>
      have hlen2 : 2 ≤ (noiseClean (bulletStrip raw)).length := by
        by_contra hcon
        apply h2
        simp only [Bool.or_eq_true, decide_eq_true_eq]
        exact Or.inl (Nat.lt_of_not_le hcon)
      have hne : (noiseClean (bulletStrip raw)).data ≠ [] := by
        intro hcon
        have hz : (noiseClean (bulletStrip raw)).length = 0 := by
          rw [strLength_data, hcon]
          rfl
        omega
      rw [normSkillCase_eq_amended _ (noiseClean_chars (bulletStrip raw)) hne]

/-- C9 counterexample: the cleaned single token "python" is neither
all-caps, version-like nor a listed acronym, so the claim rule
title-cases it to "Python", but the code preserves single tokens and
returns "python". -/
theorem normalize_skills_counterexample :
    normalize_skills ["python"] = ["python"] ∧
    claim_normalize_skills ["python"] = ["Python"] ∧
    normalize_skills ["python"] ≠ claim_normalize_skills ["python"] := by
  refine ⟨by decide, by decide, by decide⟩

/-- C9 amended: kept tokens preserve case when all-caps or version-like;
single (space-free) tokens otherwise keep their case except the nine
acronyms api, apis, sql, aws, gcp, ml, ai, ci, cd, which are uppercased;
multi-word tokens get their purely alphabetic words capitalized;
deduplication is case-insensitive, first-seen form and order. -/
theorem normalize_skills_amended (items : List String) :
    normalize_skills items = amended_normalize_skills items := by
  unfold normalize_skills amended_normalize_skills
  apply congrArg
  apply List.foldl_ext
  intro a b _
  exact normSkillStep_eq_amended a b

/-! ### semantic_similarity.py: cosine similarity -/

/-- The accumulation loop of `cosine_similarity` over `zip(a, b)`:
(dot, na, nb). -/
def cosineSums (a b : List ℚ) : ℚ × ℚ × ℚ :=
  (a.zip b).foldl
    (fun (acc : ℚ × ℚ × ℚ) p =>
      (acc.1 + p.1 * p.2, acc.2.1 + p.1 * p.1, acc.2.2 + p.2 * p.2))
    (0, 0, 0)

/-- `semantic_similarity.cosine_similarity`, with float vectors modelled
as exact rationals and `math.sqrt` as `Real.sqrt`. -/
noncomputable def cosine_similarity (a b : List ℚ) : ℝ :=
  if a.isEmpty || b.isEmpty then 0
  else if a.length ≠ b.length then 0
  else
    let s := cosineSums a b
    if s.2.1 ≤ 0 || s.2.2 ≤ 0 then 0
    else (s.1 : ℝ) / (Real.sqrt (s.2.1 : ℝ) * Real.sqrt (s.2.2 : ℝ))

theorem cosineSums_sq_nonneg (a b : List ℚ) :
    0 ≤ (cosineSums a b).2.1 ∧ 0 ≤ (cosineSums a b).2.2 := by
  unfold cosineSums
  suffices h : ∀ (l : List (ℚ × ℚ)) (init : ℚ × ℚ × ℚ), 0 ≤ init.2.1 → 0 ≤ init.2.2 →
      0 ≤ (l.foldl (fun (acc : ℚ × ℚ × ℚ) p =>
        (acc.1 + p.1 * p.2, acc.2.1 + p.1 * p.1, acc.2.2 + p.2 * p.2)) init).2.1 ∧
      0 ≤ (l.foldl (fun (acc : ℚ × ℚ × ℚ) p =>
        (acc.1 + p.1 * p.2, acc.2.1 + p.1 * p.1, acc.2.2 + p.2 * p.2)) init).2.2 by
    exact h (a.zip b) (0, 0, 0) le_rfl le_rfl
  intro l
  induction l with
  | nil => intro init h1 h2; exact ⟨h1, h2⟩
  | cons p rest ih =>
    intro init h1 h2
    simp only [List.foldl_cons]
    refine ih _ ?_ ?_
    · show 0 ≤ init.2.1 + p.1 * p.1
      nlinarith [mul_self_nonneg p.1]
    · show 0 ≤ init.2.2 + p.2 * p.2
      nlinarith [mul_self_nonneg p.2]

/-- C8: `cosine_similarity` returns 0 whenever a vector is empty, the
lengths differ, or a sum of squares (squared norm) vanishes, and in the
remaining case the divisor `sqrt(na)*sqrt(nb)` is strictly positive, so
the division is never evaluated with a zero divisor. -/
theorem cosine_similarity_guards (a b : List ℚ) :
    (a = [] → cosine_similarity a b = 0) ∧
    (b = [] → cosine_similarity a b = 0) ∧
    (a.length ≠ b.length → cosine_similarity a b = 0) ∧
    ((cosineSums a b).2.1 = 0 ∨ (cosineSums a b).2.2 = 0 → cosine_similarity a b = 0) ∧
    ((cosineSums a b).2.1 ≠ 0 → (cosineSums a b).2.2 ≠ 0 →
      0 < Real.sqrt ((cosineSums a b).2.1 : ℝ) * Real.sqrt ((cosineSums a b).2.2 : ℝ) ∧
      Real.sqrt ((cosineSums a b).2.1 : ℝ) * Real.sqrt ((cosineSums a b).2.2 : ℝ) ≠ 0) := by
  obtain ⟨hna, hnb⟩ := cosineSums_sq_nonneg a b
  refine ⟨?_, ?_, ?_, ?_, ?_⟩
  · intro h
    subst h
    simp [cosine_similarity]
  · intro h
    subst h
    simp [cosine_similarity]
  · intro h
    unfold cosine_similarity
    rcases hb : (a.isEmpty || b.isEmpty) with _ | _
    · simp only [hb, Bool.false_eq_true, if_false]
      rw [if_pos]
      exact h
    · simp [hb]
  · intro h
    unfold cosine_similarity
    dsimp only
    split
    · rfl
    · split
      · rfl
      · rw [if_pos]
        rcases h with h | h
        · simp [h]
        · simp [h]
  · intro h1 h2
    have hpa : 0 < (cosineSums a b).2.1 := lt_of_le_of_ne hna (Ne.symm h1)
    have hpb : 0 < (cosineSums a b).2.2 := lt_of_le_of_ne hnb (Ne.symm h2)
    have hsa : 0 < Real.sqrt ((cosineSums a b).2.1 : ℝ) :=
      Real.sqrt_pos.mpr (by exact_mod_cast hpa)
    have hsb : 0 < Real.sqrt ((cosineSums a b).2.2 : ℝ) :=
      Real.sqrt_pos.mpr (by exact_mod_cast hpb)
    have hpos := mul_pos hsa hsb
    exact ⟨hpos, ne_of_gt hpos⟩

/-- C8 witness: the empty-vector guard and a concrete nonzero divisor at
a = [1,2], b = [3,4] (na = 5, nb = 25). -/
theorem cosine_similarity_guards_witness :
    cosine_similarity [] [(1:ℚ)] = 0 ∧
    (0 < Real.sqrt (((cosineSums [(1:ℚ), 2] [(3:ℚ), 4]).2.1 : ℝ))
        * Real.sqrt (((cosineSums [(1:ℚ), 2] [(3:ℚ), 4]).2.2 : ℝ)) ∧
      Real.sqrt (((cosineSums [(1:ℚ), 2] [(3:ℚ), 4]).2.1 : ℝ))
        * Real.sqrt (((cosineSums [(1:ℚ), 2] [(3:ℚ), 4]).2.2 : ℝ)) ≠ 0) := by
  constructor
  · exact (cosine_similarity_guards [] [(1:ℚ)]).1 rfl
  · refine (cosine_similarity_guards [(1:ℚ), 2] [(3:ℚ), 4]).2.2.2.2 ?_ ?_
    · show (cosineSums [(1:ℚ), 2] [(3:ℚ), 4]).2.1 ≠ 0
      norm_num [cosineSums]
    · show (cosineSums [(1:ℚ), 2] [(3:ℚ), 4]).2.2 ≠ 0
      norm_num [cosineSums]

/-! ### hashlib.sha256, modelled on naturals mod 2^32 -/

/-- UTF-8 encoding of a character, as byte values. -/
def charUtf8 (c : Char) : List ℕ :=
  let n := c.toNat
  if n < 0x80 then [n]
  else if n < 0x800 then
    [0xC0 ||| (n >>> 6), 0x80 ||| (n &&& 0x3F)]
  else if n < 0x10000 then
    [0xE0 ||| (n >>> 12), 0x80 ||| ((n >>> 6) &&& 0x3F), 0x80 ||| (n &&& 0x3F)]
  else
    [0xF0 ||| (n >>> 18), 0x80 ||| ((n >>> 12) &&& 0x3F),
     0x80 ||| ((n >>> 6) &&& 0x3F), 0x80 ||| (n &&& 0x3F)]

/-- Python `str.encode()` (UTF-8). -/
def utf8Bytes (s : String) : List ℕ :=
  (s.data.map charUtf8).flatten

def rotr32 (n x : ℕ) : ℕ :=
  ((x >>> n) ||| (x <<< (32 - n))) % 4294967296

/-- The 64 SHA-256 round constants (fractional parts of the cube roots
of the first 64 primes), written in decimal. -/
def shaK : List ℕ :=
  [1116352408, 1899447441, 3049323471, 3921009573, 961987163,
   1508970993, 2453635748, 2870763221, 3624381080, 310598401,
   607225278, 1426881987, 1925078388, 2162078206, 2614888103,
   3248222580, 3835390401, 4022224774, 264347078, 604807628,
   770255983, 1249150122, 1555081692, 1996064986, 2554220882,
   2821834349, 2952996808, 3210313671, 3336571891, 3584528711,
   113926993, 338241895, 666307205, 773529912, 1294757372,
   1396182291, 1695183700, 1986661051, 2177026350, 2456956037,
   2730485921, 2820302411, 3259730800, 3345764771, 3516065817,
   3600352804, 4094571909, 275423344, 430227734, 506948616,
   659060556, 883997877, 958139571, 1322822218, 1537002063,
   1747873779, 1955562222, 2024104815, 2227730452, 2361852424,
   2428436474, 2756734187, 3204031479, 3329325298]

/-- The initial hash state, in decimal. -/
def shaH0 : List ℕ :=
  [1779033703, 3144134277, 1013904242, 2773480762, 1359893119,
   2600822924, 528734635, 1541459225]

def be64 (n : ℕ) : List ℕ :=
  [(n >>> 56) % 256, (n >>> 48) % 256, (n >>> 40) % 256, (n >>> 32) % 256,
   (n >>> 24) % 256, (n >>> 16) % 256, (n >>> 8) % 256, n % 256]

/-- SHA-256 padding: 0x80, zeros, 64-bit big-endian bit length. -/
def shaPad (m : List ℕ) : List ℕ :=
  let len := m.length
  let k := (64 + 56 - ((len + 1) % 64)) % 64
  m ++ [0x80] ++ List.replicate k 0 ++ be64 (8 * len)

def chunksAux : ℕ → List ℕ → List (List ℕ)
  | 0, _ => []
  | _+1, [] => []
  | fuel+1, l => l.take 64 :: chunksAux fuel (l.drop 64)

/-- Split the padded message into 64-byte blocks. -/
def chunks64 (l : List ℕ) : List (List ℕ) :=
  chunksAux l.length l

/-- The 16 initial 32-bit words of a block. -/
def blockWords (b : List ℕ) : List ℕ :=
  (List.range 16).map (fun i =>
    (((b.getD (4 * i) 0) <<< 24) ||| ((b.getD (4 * i + 1) 0) <<< 16)
      ||| ((b.getD (4 * i + 2) 0) <<< 8) ||| (b.getD (4 * i + 3) 0)))

def smallSigma0 (x : ℕ) : ℕ := (rotr32 7 x) ^^^ (rotr32 18 x) ^^^ (x >>> 3)
def smallSigma1 (x : ℕ) : ℕ := (rotr32 17 x) ^^^ (rotr32 19 x) ^^^ (x >>> 10)
def bigSigma0 (x : ℕ) : ℕ := (rotr32 2 x) ^^^ (rotr32 13 x) ^^^ (rotr32 22 x)
def bigSigma1 (x : ℕ) : ℕ := (rotr32 6 x) ^^^ (rotr32 11 x) ^^^ (rotr32 25 x)

/-- Extend the message schedule to 64 words. -/
def extendW : ℕ → List ℕ → List ℕ
  | 0, w => w
  | t+1, w =>
    let i := w.length
    let nw := (smallSigma1 (w.getD (i - 2) 0) + w.getD (i - 7) 0
      + smallSigma0 (w.getD (i - 15) 0) + w.getD (i - 16) 0) % 4294967296
    extendW t (w ++ [nw])

/-- One compression round; state is [a,b,c,d,e,f,g,h]. -/
def shaRound (st : List ℕ) (kw : ℕ × ℕ) : List ℕ :=
  match st with
  | [a, b, c, d, e, f, g, h] =>
    let t1 := (h + bigSigma1 e + ((e &&& f) ^^^ ((4294967295 - e) &&& g))
      + kw.1 + kw.2) % 4294967296
    let t2 := (bigSigma0 a + ((a &&& b) ^^^ (a &&& c) ^^^ (b &&& c))) % 4294967296
    [(t1 + t2) % 4294967296, a, b, c, (d + t1) % 4294967296, e, f, g]
  | _ => st

/-- Process one block into the running hash [h0..h7]. -/
def shaBlock (hs : List ℕ) (b : List ℕ) : List ℕ :=
  let w := extendW 48 (blockWords b)
  let st := (shaK.zip w).foldl shaRound hs
  (hs.zip st).map (fun p => (p.1 + p.2) % 4294967296)

def hexDigit (n : ℕ) : Char :=
  if n < 10 then Char.ofNat (48 + n) else Char.ofNat (87 + n)

def hex32 (w : ℕ) : List Char :=
  [hexDigit ((w >>> 28) % 16), hexDigit ((w >>> 24) % 16),
   hexDigit ((w >>> 20) % 16), hexDigit ((w >>> 16) % 16),
   hexDigit ((w >>> 12) % 16), hexDigit ((w >>> 8) % 16),
   hexDigit ((w >>> 4) % 16), hexDigit (w % 16)]

/-- `hashlib.sha256(bytes).hexdigest()`. -/
def sha256hexBytes (m : List ℕ) : String :=
  ⟨((chunks64 (shaPad m)).foldl shaBlock shaH0).map hex32 |>.flatten⟩

/-- `hashlib.sha256(s.encode()).hexdigest()`. -/
def sha256hexStr (s : String) : String :=
  sha256hexBytes (utf8Bytes s)

/-! ### ai_match_cache.py -/

/-- `config.GEMINI_MODEL` default. -/
def GEMINI_MODEL : String := "gemini-2.0-flash"

/-- Python slicing `s[:n]`. -/
def strTake (n : ℕ) (s : String) : String :=
  ⟨s.data.take n⟩

/-- `ai_match_cache._generate_cache_key`: prefer
`sha256("job_id:resume_id:model")`; else hash the pair of truncated
(32 hex character) content digests with the model; else `ValueError`. -/
def _generate_cache_key (job_id resume_id : Option ℤ)
    (job_text resume_text : Option String) (model_version : Option String) :
    Except PyExn String :=
  let model := pyOrStr model_version GEMINI_MODEL
  match job_id, resume_id with
  | some j, some r =>
    .ok (sha256hexStr (toString j ++ ":" ++ toString r ++ ":" ++ model))
  | _, _ =>
    match job_text, resume_text with
    | some jt, some rt =>
      let job_hash := strTake 32 (sha256hexStr jt)
      let resume_hash := strTake 32 (sha256hexStr rt)
      .ok (sha256hexStr (job_hash ++ ":" ++ resume_hash ++ ":" ++ model))
    | _, _ => .error .valueError

set_option maxRecDepth 100000 in
/-- C5 counterexample: with content hashing, the inner digests are
truncated to their first 32 hex characters, so the key differs from the
claimed `sha256(sha256(job_text):sha256(resume_text):model)` built from
full digests. -/
theorem cache_key_truncates_inner_digests :
    _generate_cache_key none none (some "a") (some "b") (some "m")
      = .ok (sha256hexStr (strTake 32 (sha256hexStr "a") ++ ":"
          ++ strTake 32 (sha256hexStr "b") ++ ":" ++ "m")) ∧
    sha256hexStr (strTake 32 (sha256hexStr "a") ++ ":"
        ++ strTake 32 (sha256hexStr "b") ++ ":" ++ "m")
      ≠ sha256hexStr (sha256hexStr "a" ++ ":" ++ sha256hexStr "b" ++ ":" ++ "m") := by
  exact ⟨rfl, by decide⟩

/-- C5 amended: `sha256("job_id:resume_id:model")` when both IDs are
given; otherwise, with both texts given,
`sha256(sha256(job_text)[:32] + ":" + sha256(resume_text)[:32] + ":" + model)`. -/
theorem generate_cache_key_spec (j r : ℤ) (jt rt m : String) (hm : m ≠ "") :
    (∀ ojt ort, _generate_cache_key (some j) (some r) ojt ort (some m)
      = .ok (sha256hexStr (toString j ++ ":" ++ toString r ++ ":" ++ m))) ∧
    (∀ oj orr : Option ℤ, oj.isNone ∨ orr.isNone →
      _generate_cache_key oj orr (some jt) (some rt) (some m)
        = .ok (sha256hexStr (strTake 32 (sha256hexStr jt) ++ ":"
            ++ strTake 32 (sha256hexStr rt) ++ ":" ++ m))) := by
  have hpy : pyOrStr (some m) GEMINI_MODEL = m := by
    simp [pyOrStr, hm]
  constructor
  · intro ojt ort
    unfold _generate_cache_key
    rw [hpy]
  · intro oj orr h
    unfold _generate_cache_key
    rw [hpy]
    cases oj with
    | none => cases orr <;> rfl
    | some a =>
      cases orr with
      | none => rfl
      | some b => simp at h

/-- C5 witness: the amended key equations at concrete inputs. -/
theorem generate_cache_key_spec_witness :
    ("gemini-2.0-flash" : String) ≠ "" ∧
    _generate_cache_key (some 1) (some 2) none none (some "gemini-2.0-flash")
      = .ok (sha256hexStr ("1" ++ ":" ++ "2" ++ ":" ++ "gemini-2.0-flash")) ∧
    _generate_cache_key none none (some "a") (some "b") (some "gemini-2.0-flash")
      = .ok (sha256hexStr (strTake 32 (sha256hexStr "a") ++ ":"
          ++ strTake 32 (sha256hexStr "b") ++ ":" ++ "gemini-2.0-flash")) := by
  have h := generate_cache_key_spec 1 2 "a" "b" "gemini-2.0-flash" (by decide)
  exact ⟨by decide, h.1 none none, h.2 none none (Or.inl rfl)⟩

mutual

/-- Model of `json.dumps` (ensure_ascii=False; string escaping and float
formatting approximated — the claims only inspect whether a row exists,
never this payload). -/
def jsonDumps : Json → String
  | .null => "null"
  | .bool b => if b then "true" else "false"
  | .num isInt q =>
    if isInt then toString q.num
    else if q.den = 1 then toString q.num ++ ".0"
    else toString q.num ++ "/" ++ toString q.den
  | .str s => "\"" ++ s ++ "\""
  | .arr l => "[" ++ String.intercalate ", " (jsonDumpsList l) ++ "]"
  | .obj kvs => "\x7b" ++ String.intercalate ", " (jsonDumpsPairs kvs) ++ "\x7d"
  | .inf n => if n then "-Infinity" else "Infinity"
  | .nan => "NaN"

def jsonDumpsList : List Json → List String
  | [] => []
  | j :: js => jsonDumps j :: jsonDumpsList js

def jsonDumpsPairs : List (String × Json) → List String
  | [] => []
  | (k, v) :: rest => ("\"" ++ k ++ "\": " ++ jsonDumps v) :: jsonDumpsPairs rest

end

/-- Python `int()` truncation toward zero on a rational. -/
def ratTrunc (q : ℚ) : ℤ :=
  if q < 0 then -((-q).floor) else q.floor

/-- The `match_score` computation of `cache_match_result`:
`int(match_result.get("score")) if isinstance(..., (int, float)) else
None` (bool is an int in Python; int(inf)/int(nan) raise). -/
def matchScoreOf (mr : List (String × Json)) : Except PyExn (Option ℤ) :=
  match mr.find? (fun p => p.1 == "score") with
  | none => .ok none
  | some p =>
    match p.2 with
    | .num _ q => .ok (some (ratTrunc q))
    | .bool b => .ok (some (if b then 1 else 0))
    | .inf _ => .error .overflowError
    | .nan => .error .valueError
    | _ => .ok none

/-- A row of the `ai_match_cache` table. -/
structure CacheRow where
  cache_key : String
  job_id : Option ℤ
  resume_id : Option ℤ
  model_version : String
  match_result_json : String
  match_score : Option ℤ
  api_latency_ms : Option ℤ
deriving DecidableEq

/-- `ai_match_cache.cache_match_result` over an explicit table state:
returns (success, new table). -/
def cache_match_result (db : List CacheRow) (match_result : List (String × Json))
    (job_id resume_id : Option ℤ) (job_text resume_text : Option String)
    (api_latency_ms : Option ℤ) (model_version : Option String) :
    Bool × List CacheRow :=
  match _generate_cache_key job_id resume_id job_text resume_text model_version with
  | .error _ => (false, db)
  | .ok cache_key =>
    let model := pyOrStr model_version GEMINI_MODEL
    match db.find? (fun r => r.cache_key == cache_key) with
    | some _ => (true, db)
    | none =>
      match matchScoreOf match_result with
      | .error _ => (false, db)
      | .ok ms =>
        (true, db ++ [{
          cache_key := cache_key
          job_id := job_id
          resume_id := resume_id
          model_version := model
          match_result_json := jsonDumps (Json.obj match_result)
          match_score := ms
          api_latency_ms := api_latency_ms }])

/-- C6: when a row with the computed cache key already exists,
`cache_match_result` returns success and leaves the table completely
unchanged, whatever match_result is passed — so a second writer with the
same key is a no-op. -/
theorem cache_match_result_existing_noop
    (db : List CacheRow) (mr : List (String × Json)) (jid rid : Option ℤ)
    (jt rt : Option String) (lat : Option ℤ) (mv : Option String)
    (k : String) (row : CacheRow)
    (hk : _generate_cache_key jid rid jt rt mv = .ok k)
    (hfind : db.find? (fun r => r.cache_key == k) = some row) :
    cache_match_result db mr jid rid jt rt lat mv = (true, db) := by
  unfold cache_match_result
  rw [hk]
  dsimp only
  rw [hfind]

/-- A concrete pre-existing cache row for the C6 witness; its key is
sha256("1:2:gemini-2.0-flash"). -/
def exampleCacheRow : CacheRow :=
  { cache_key := "8edf099fe4f855531860bfe4666b7c437a77918a4f753769380e4712fd947095"
    job_id := some 1
    resume_id := some 2
    model_version := "gemini-2.0-flash"
    match_result_json := "\x7b\"score\": 80\x7d"
    match_score := some 80
    api_latency_ms := none }

set_option maxRecDepth 100000 in
/-- C6 witness: on a table already holding the key for (job 1, resume 2,
default model), a write with a different match_result returns success and
leaves the table unchanged. -/
theorem cache_match_result_existing_noop_witness :
    _generate_cache_key (some 1) (some 2) none none none
      = .ok exampleCacheRow.cache_key ∧
    cache_match_result [exampleCacheRow] [("score", Json.num true 55)]
      (some 1) (some 2) none none none none = (true, [exampleCacheRow]) := by
  have hk : _generate_cache_key (some 1) (some 2) none none none
      = .ok exampleCacheRow.cache_key := rfl
  have hf : [exampleCacheRow].find?
      (fun r => r.cache_key == exampleCacheRow.cache_key) = some exampleCacheRow := rfl
  exact ⟨hk, cache_match_result_existing_noop [exampleCacheRow]
    [("score", Json.num true 55)] (some 1) (some 2) none none none none
    exampleCacheRow.cache_key exampleCacheRow hk hf⟩

/-! ### embeddings.py -/

/-- `config.EMBEDDINGS_MODEL` default. -/
def EMBEDDINGS_MODEL : String := "BAAI/bge-small-en-v1.5"

/-- `embeddings.normalize_text`: strip, collapse every whitespace run to
one space. -/
def normalize_text (text : String) : String :=
  ⟨mapRuns isPySpace (fun r => if r.isEmpty then [] else [' '])
    (pyStrip text).data⟩

/-- `embeddings.text_hash`: sha256 of `"{model}\n{text}"`. -/
def text_hash (text model : String) : String :=
  sha256hexStr (model ++ "\n" ++ text)

/-- `embeddings.embed_text` with the external fastembed model injected as
`embedFn` (its vectors modelled as exact rationals). -/
def embed_text (embedFn : String → List ℚ) (enabled : Bool) (text : String) :
    List ℚ :=
  if !enabled then []
  else
    let t := normalize_text text
    if t = "" then [] else embedFn t

/-- A row of the `embeddings` table; `updated_at` is a logical clock. -/
structure EmbRow where
  id : ℕ
  entity_type : String
  entity_id : ℤ
  model : String
  dim : ℕ
  text_hash : String
  vector_json : String
  updated_at : ℕ
deriving DecidableEq

/-- The `embeddings` table plus a logical clock bounding all
`updated_at` stamps. -/
structure EmbDb where
  rows : List EmbRow
  clock : ℕ
deriving DecidableEq

/-- The `(entity_type, entity_id, model)` lookup filter. -/
def keyMatches (r : EmbRow) (et : String) (eid : ℤ) (m : String) : Bool :=
  r.entity_type == et && r.entity_id == eid && r.model == m

/-- One step of `order_by(updated_at.desc()).first()`: keep the row with
the strictly larger stamp. -/
def pickLatest (acc : Option EmbRow) (r : EmbRow) : Option EmbRow :=
  match acc with
  | none => some r
  | some b => if b.updated_at < r.updated_at then some r else acc

def latestRow (rows : List EmbRow) (et : String) (eid : ℤ) (m : String) :
    Option EmbRow :=
  (rows.filter (fun r => keyMatches r et eid m)).foldl pickLatest none

/-- ORM in-place update: replace the (first) occurrence of the fetched
row object. -/
def replaceRow (rows : List EmbRow) (old nw : EmbRow) : List EmbRow :=
  match rows with
  | [] => []
  | r :: rest => if r == old then nw :: rest else r :: replaceRow rest old nw

/-- `json.dumps(vector)`. -/
def serializeVec (v : List ℚ) : String :=
  jsonDumps (Json.arr (v.map (fun q => Json.num false q)))

/-- `embeddings.get_or_create_embedding` over an explicit table state. -/
def get_or_create_embedding (embedFn : String → List ℚ) (enabled : Bool)
    (db : EmbDb) (entity_type : String) (entity_id : ℤ) (text : String)
    (model : Option String) : Option EmbRow × EmbDb :=
  if !enabled then (none, db)
  else
    let model_name := pyOrStr model EMBEDDINGS_MODEL
    let norm := normalize_text text
    if norm = "" then (none, db)
    else
      let h := text_hash norm model_name
      let row? := latestRow db.rows entity_type entity_id model_name
      let reuse : Option EmbRow :=
        match row? with
        | some row =>
          if row.text_hash == h && !(row.vector_json == "") then some row else none
        | none => none
      match reuse with
      | some row => (some row, db)
      | none =>
        let vector := embed_text embedFn enabled norm
        if vector = [] then (none, db)
        else
          let payload := serializeVec vector
          let dim := vector.length
          match row? with
          | some row =>
            let newRow : EmbRow :=
              { row with
                text_hash := h
                vector_json := payload
                dim := dim
                updated_at := db.clock + 1 }
            (some newRow, { rows := replaceRow db.rows row newRow, clock := db.clock + 1 })
          | none =>
            let newRow : EmbRow :=
              { id := db.clock + 1
                entity_type := entity_type
                entity_id := entity_id
                model := model_name
                dim := dim
                text_hash := h
                vector_json := payload
                updated_at := db.clock + 1 }
            (some newRow, { rows := db.rows ++ [newRow], clock := db.clock + 1 })

/-- At most one embedding row per `(entity_type, entity_id, model)` key. -/
def atMostOnePerKey (rows : List EmbRow) : Prop :=
  ∀ et eid m, (rows.filter (fun r => keyMatches r et eid m)).length ≤ 1

theorem foldl_pickLatest_isSome (l : List EmbRow) :
    ∀ b : EmbRow, ∃ c, l.foldl pickLatest (some b) = some c := by
  induction l with
  | nil => intro b; exact ⟨b, rfl⟩
  | cons r rest ih =>
    intro b
    simp only [List.foldl_cons, pickLatest]
    split
    · exact ih r
    · exact ih b

theorem latestRow_none_iff (rows : List EmbRow) (et : String) (eid : ℤ) (m : String) :
    latestRow rows et eid m = none ↔
      rows.filter (fun r => keyMatches r et eid m) = [] := by
  unfold latestRow
  cases hf : rows.filter (fun r => keyMatches r et eid m) with
  | nil => simp
  | cons r rest =>
    simp only [List.foldl_cons, pickLatest]
    obtain ⟨c, hc⟩ := foldl_pickLatest_isSome rest r
    rw [hc]
    simp

theorem foldl_pickLatest_mem (l : List EmbRow) :
    ∀ (acc : Option EmbRow) (r : EmbRow), l.foldl pickLatest acc = some r →
      r ∈ l ∨ acc = some r := by
  induction l with
  | nil => intro acc r h; exact Or.inr h
  | cons x rest ih =>
    intro acc r h
    simp only [List.foldl_cons] at h
    rcases ih (pickLatest acc x) r h with hm | hacc
    · exact Or.inl (List.mem_cons_of_mem x hm)
    · unfold pickLatest at hacc
      rcases hq : acc with _ | b
      · rw [hq] at hacc
        simp only at hacc
        exact Or.inl (by rw [← Option.some_inj.mp hacc]; exact List.mem_cons_self x rest)
      · rw [hq] at hacc
        simp only at hacc
        split at hacc
        · exact Or.inl (by rw [← Option.some_inj.mp hacc]; exact List.mem_cons_self x rest)
        · exact Or.inr hacc

theorem latestRow_mem (rows : List EmbRow) (et : String) (eid : ℤ) (m : String)
    (r : EmbRow) (h : latestRow rows et eid m = some r) :
    r ∈ rows ∧ keyMatches r et eid m = true := by
  unfold latestRow at h
  rcases foldl_pickLatest_mem _ none r h with hm | hacc
  · rw [List.mem_filter] at hm
    exact ⟨hm.1, hm.2⟩
  · exact absurd hacc (by simp)

theorem replaceRow_length (rows : List EmbRow) (old nw : EmbRow) :
    (replaceRow rows old nw).length = rows.length := by
  induction rows with
  | nil => rfl
  | cons r rest ih =>
    unfold replaceRow
    split
    · simp
    · simp [ih]

theorem mem_replaceRow (rows : List EmbRow) (old nw r : EmbRow)
    (h : r ∈ replaceRow rows old nw) : r = nw ∨ r ∈ rows := by
  induction rows with
  | nil => exact absurd h (by simp [replaceRow])
  | cons x rest ih =>
    unfold replaceRow at h
    split at h
    · rcases List.mem_cons.mp h with h1 | h1
      · exact Or.inl h1
      · exact Or.inr (List.mem_cons_of_mem x h1)
    · rcases List.mem_cons.mp h with h1 | h1
      · exact Or.inr (h1 ▸ List.mem_cons_self x rest)
      · rcases ih h1 with h2 | h2
        · exact Or.inl h2
        · exact Or.inr (List.mem_cons_of_mem x h2)

theorem nw_mem_replaceRow (rows : List EmbRow) (old nw : EmbRow)
    (h : old ∈ rows) : nw ∈ replaceRow rows old nw := by
  induction rows with
  | nil => exact absurd h (by simp)
  | cons x rest ih =>
    unfold replaceRow
    split
    · exact List.mem_cons_self nw _
    · next hne =>
      rcases List.mem_cons.mp h with h1 | h1
      · exfalso
        apply hne
        rw [h1]
        exact beq_self_eq_true x
      · exact List.mem_cons_of_mem x (ih h1)

theorem filter_replaceRow_length (rows : List EmbRow) (old nw : EmbRow)
    (p : EmbRow → Bool) (hp : p old = p nw) :
    ((replaceRow rows old nw).filter p).length = (rows.filter p).length := by
  induction rows with
  | nil => rfl
  | cons x rest ih =>
    unfold replaceRow
    split
    · next hx =>
      have hxe : x = old := by simpa using hx
      subst hxe
      rw [List.filter_cons, List.filter_cons, ← hp]
      split
      · simp
      · simp
    · rw [List.filter_cons, List.filter_cons]
      split
      · simp [ih]
      · exact ih

theorem serializeVec_ne_empty (v : List ℚ) : serializeVec v ≠ "" := by
  unfold serializeVec jsonDumps
  intro h
  have hd := congrArg String.data h
  rw [String.data_append] at hd
  simp at hd

theorem foldl_pickLatest_max (r0 : EmbRow) :
    ∀ (l : List EmbRow) (acc : Option EmbRow),
      (r0 ∈ l ∨ acc = some r0) →
      (∀ r ∈ l, r ≠ r0 → r.updated_at < r0.updated_at) →
      (∀ b, acc = some b → b ≠ r0 → b.updated_at < r0.updated_at) →
      l.foldl pickLatest acc = some r0 := by
  intro l
  induction l with
  | nil =>
    intro acc hin _ _
    rcases hin with h | h
    · exact absurd h (by simp)
    · exact h
  | cons x rest ih =>
    intro acc hin hlt hacc
    simp only [List.foldl_cons]
    by_cases hx : x = r0
    · subst hx
      have hstep : pickLatest acc x = some x := by
        unfold pickLatest
        rcases hq : acc with _ | b
        · rfl
        · by_cases hb : b = x
          · subst hb
            simp
          · have := hacc b hq hb
            simp only
            rw [if_pos this]
      apply ih (pickLatest acc x)
      · exact Or.inr hstep
      · intro r hr hrne
        exact hlt r (List.mem_cons_of_mem x hr) hrne
      · intro b hb hbne
        rw [hstep] at hb
        exact absurd (Option.some_inj.mp hb).symm hbne
    · have hxlt : x.updated_at < r0.updated_at :=
        hlt x (List.mem_cons_self x rest) hx
      have hin2 : r0 ∈ rest ∨ acc = some r0 := by
        rcases hin with h | h
        · rcases List.mem_cons.mp h with h1 | h1
          · exact absurd h1.symm hx
          · exact Or.inl h1
        · exact Or.inr h
      rcases hin2 with hmem | haccr0
      · apply ih (pickLatest acc x)
        · exact Or.inl hmem
        · intro r hr hrne
          exact hlt r (List.mem_cons_of_mem x hr) hrne
        · intro b hb hbne
          unfold pickLatest at hb
          rcases hq : acc with _ | b0
          · rw [hq] at hb
            simp only at hb
            rw [← Option.some_inj.mp hb]
            exact hxlt
          · rw [hq] at hb
            simp only at hb
            split at hb
            · rw [← Option.some_inj.mp hb]
              exact hxlt
            · have hbb : b0 = b := Option.some_inj.mp hb
              rw [← hbb] at hbne ⊢
              exact hacc b0 hq hbne
      · have hstep : pickLatest acc x = some r0 := by
          unfold pickLatest
          rw [haccr0]
          simp only
          rw [if_neg (by omega)]
        apply ih (pickLatest acc x)
        · exact Or.inr hstep
        · intro r hr hrne
          exact hlt r (List.mem_cons_of_mem x hr) hrne
        · intro b hb hbne
          rw [hstep] at hb
          exact absurd (Option.some_inj.mp hb).symm hbne

/-- The row written by the update branch of `get_or_create_embedding`. -/
def updatedEmbRow (row : EmbRow) (h payload : String) (d c : ℕ) : EmbRow :=
  { row with text_hash := h, vector_json := payload, dim := d, updated_at := c }

/-- The row written by the insert branch of `get_or_create_embedding`. -/
def insertedEmbRow (et : String) (eid : ℤ) (mn : String) (d : ℕ)
    (h payload : String) (c : ℕ) : EmbRow :=
  { id := c
    entity_type := et
    entity_id := eid
    model := mn
    dim := d
    text_hash := h
    vector_json := payload
    updated_at := c }

theorem goce_reuse (embedFn : String → List ℚ) (db : EmbDb) (et : String)
    (eid : ℤ) (text : String) (m : Option String) (row : EmbRow)
    (hnorm : normalize_text text ≠ "")
    (hrow : latestRow db.rows et eid (pyOrStr m EMBEDDINGS_MODEL) = some row)
    (hcond : (row.text_hash == text_hash (normalize_text text) (pyOrStr m EMBEDDINGS_MODEL)
        && !(row.vector_json == "")) = true) :
    get_or_create_embedding embedFn true db et eid text m = (some row, db) := by
  unfold get_or_create_embedding
  simp only [Bool.not_true, Bool.false_eq_true, if_false]
  rw [if_neg hnorm]
  rw [hrow]
  dsimp only
  rw [hcond]
  rfl

theorem goce_update (embedFn : String → List ℚ) (db : EmbDb) (et : String)
    (eid : ℤ) (text : String) (m : Option String) (row : EmbRow)
    (hnorm : normalize_text text ≠ "")
    (hrow : latestRow db.rows et eid (pyOrStr m EMBEDDINGS_MODEL) = some row)
    (hcond : (row.text_hash == text_hash (normalize_text text) (pyOrStr m EMBEDDINGS_MODEL)
        && !(row.vector_json == "")) = false)
    (hvec : embed_text embedFn true (normalize_text text) ≠ []) :
    get_or_create_embedding embedFn true db et eid text m =
      (some (updatedEmbRow row
          (text_hash (normalize_text text) (pyOrStr m EMBEDDINGS_MODEL))
          (serializeVec (embed_text embedFn true (normalize_text text)))
          (embed_text embedFn true (normalize_text text)).length (db.clock + 1)),
       { rows := replaceRow db.rows row
           (updatedEmbRow row
             (text_hash (normalize_text text) (pyOrStr m EMBEDDINGS_MODEL))
             (serializeVec (embed_text embedFn true (normalize_text text)))
             (embed_text embedFn true (normalize_text text)).length (db.clock + 1))
         clock := db.clock + 1 }) := by
  unfold get_or_create_embedding
  simp only [Bool.not_true, Bool.false_eq_true, if_false]
  rw [if_neg hnorm]
  rw [hrow]
  dsimp only
  rw [hcond]
  simp only [Bool.false_eq_true, if_false]
  rw [if_neg hvec]
  rfl

theorem goce_insert (embedFn : String → List ℚ) (db : EmbDb) (et : String)
    (eid : ℤ) (text : String) (m : Option String)
    (hnorm : normalize_text text ≠ "")
    (hrow : latestRow db.rows et eid (pyOrStr m EMBEDDINGS_MODEL) = none)
    (hvec : embed_text embedFn true (normalize_text text) ≠ []) :
    get_or_create_embedding embedFn true db et eid text m =
      (some (insertedEmbRow et eid (pyOrStr m EMBEDDINGS_MODEL)
          (embed_text embedFn true (normalize_text text)).length
          (text_hash (normalize_text text) (pyOrStr m EMBEDDINGS_MODEL))
          (serializeVec (embed_text embedFn true (normalize_text text)))
          (db.clock + 1)),
       { rows := db.rows ++ [insertedEmbRow et eid (pyOrStr m EMBEDDINGS_MODEL)
             (embed_text embedFn true (normalize_text text)).length
             (text_hash (normalize_text text) (pyOrStr m EMBEDDINGS_MODEL))
             (serializeVec (embed_text embedFn true (normalize_text text)))
             (db.clock + 1)]
         clock := db.clock + 1 }) := by
  unfold get_or_create_embedding
  simp only [Bool.not_true, Bool.false_eq_true, if_false]
  rw [if_neg hnorm]
  rw [hrow]
  dsimp only
  rw [if_neg hvec]
  rfl

theorem goce_no_vector (embedFn : String → List ℚ) (db : EmbDb) (et : String)
    (eid : ℤ) (text : String) (m : Option String)
    (hnorm : normalize_text text ≠ "")
    (hvec : embed_text embedFn true (normalize_text text) = []) :
    (get_or_create_embedding embedFn true db et eid text m).2 = db := by
  unfold get_or_create_embedding
  simp only [Bool.not_true, Bool.false_eq_true, if_false]
  rw [if_neg hnorm]
  cases hrow : latestRow db.rows et eid (pyOrStr m EMBEDDINGS_MODEL) with
  | none =>
    dsimp only
    rw [if_pos hvec]
  | some row =>
    dsimp only
    split
    · rfl
    · rw [if_pos hvec]

theorem goce_empty_norm (embedFn : String → List ℚ) (db : EmbDb) (et : String)
    (eid : ℤ) (text : String) (m : Option String)
    (hnorm : normalize_text text = "") :
    get_or_create_embedding embedFn true db et eid text m = (none, db) := by
  unfold get_or_create_embedding
  simp only [Bool.not_true, Bool.false_eq_true, if_false]
  rw [if_pos hnorm]

theorem goce_disabled (embedFn : String → List ℚ) (db : EmbDb) (et : String)
    (eid : ℤ) (text : String) (m : Option String) :
    get_or_create_embedding embedFn false db et eid text m = (none, db) := by
  unfold get_or_create_embedding
  simp

theorem latestRow_after_write (rows : List EmbRow) (nr : EmbRow) (et : String)
    (eid : ℤ) (mn : String) (c : ℕ)
    (hmem : nr ∈ rows) (hkey : keyMatches nr et eid mn = true)
    (hup : nr.updated_at = c + 1)
    (hother : ∀ r ∈ rows, r ≠ nr → r.updated_at ≤ c) :
    latestRow rows et eid mn = some nr := by
  unfold latestRow
  apply foldl_pickLatest_max
  · exact Or.inl (List.mem_filter.mpr ⟨hmem, hkey⟩)
  · intro r hr hrne
    have hr2 := (List.mem_filter.mp hr).1
    have := hother r hr2 hrne
    omega
  · intro b hb _
    exact absurd hb (by simp)

/-- C7: `get_or_create_embedding` (with the embedding backend injected
as `embedFn` and enabled) (i) preserves the at-most-one-row-per-(entity,
model)-key invariant on every call, (ii) is idempotent — an immediate
second call with the same text returns the very same row and leaves the
table unchanged, inserting no second row — and (iii) on a hash-changing
text for an entity that already has a row, updates that row in place
(new text_hash, vector payload, dim) without changing the number of
rows. -/
theorem get_or_create_embedding_spec (embedFn : String → List ℚ)
    (db : EmbDb) (et : String) (eid : ℤ) (text : String) (m : Option String)
    (hclock : ∀ r ∈ db.rows, r.updated_at ≤ db.clock) :
    (∀ e : Bool, atMostOnePerKey db.rows →
      atMostOnePerKey (get_or_create_embedding embedFn e db et eid text m).2.rows) ∧
    (normalize_text text ≠ "" →
      embed_text embedFn true (normalize_text text) ≠ [] →
      get_or_create_embedding embedFn true
          (get_or_create_embedding embedFn true db et eid text m).2 et eid text m
        = get_or_create_embedding embedFn true db et eid text m) ∧
    (∀ row, latestRow db.rows et eid (pyOrStr m EMBEDDINGS_MODEL) = some row →
      row.text_hash ≠ text_hash (normalize_text text) (pyOrStr m EMBEDDINGS_MODEL) →
      normalize_text text ≠ "" →
      embed_text embedFn true (normalize_text text) ≠ [] →
      (get_or_create_embedding embedFn true db et eid text m).2.rows.length
          = db.rows.length ∧
      (get_or_create_embedding embedFn true db et eid text m).1
        = some (updatedEmbRow row
            (text_hash (normalize_text text) (pyOrStr m EMBEDDINGS_MODEL))
            (serializeVec (embed_text embedFn true (normalize_text text)))
            (embed_text embedFn true (normalize_text text)).length
            (db.clock + 1))) := by
  refine ⟨?_, ?_, ?_⟩
  · -- invariant preservation
    intro e hmo
    cases e with
    | false => rw [goce_disabled]; exact hmo
    | true =>
      by_cases hnorm : normalize_text text = ""
      · rw [goce_empty_norm embedFn db et eid text m hnorm]; exact hmo
      · by_cases hvec : embed_text embedFn true (normalize_text text) = []
        · rw [goce_no_vector embedFn db et eid text m hnorm hvec]; exact hmo
        · cases hrow : latestRow db.rows et eid (pyOrStr m EMBEDDINGS_MODEL) with
          | some row =>
            cases hcond : (row.text_hash ==
                text_hash (normalize_text text) (pyOrStr m EMBEDDINGS_MODEL)
                && !(row.vector_json == "")) with
            | true =>
              rw [goce_reuse embedFn db et eid text m row hnorm hrow hcond]
              exact hmo
            | false =>
              rw [goce_update embedFn db et eid text m row hnorm hrow hcond hvec]
              intro et2 eid2 m2
              have hfl := filter_replaceRow_length db.rows row
                (updatedEmbRow row
                  (text_hash (normalize_text text) (pyOrStr m EMBEDDINGS_MODEL))
                  (serializeVec (embed_text embedFn true (normalize_text text)))
                  (embed_text embedFn true (normalize_text text)).length (db.clock + 1))
                (fun r => keyMatches r et2 eid2 m2) rfl
              calc _ = _ := hfl
                _ ≤ 1 := hmo et2 eid2 m2
          | none =>
            rw [goce_insert embedFn db et eid text m hnorm hrow hvec]
            intro et2 eid2 m2
            rw [List.filter_append]
            cases hp : keyMatches (insertedEmbRow et eid (pyOrStr m EMBEDDINGS_MODEL)
                (embed_text embedFn true (normalize_text text)).length
                (text_hash (normalize_text text) (pyOrStr m EMBEDDINGS_MODEL))
                (serializeVec (embed_text embedFn true (normalize_text text)))
                (db.clock + 1)) et2 eid2 m2 with
            | false =>
              simp only [List.filter_cons, hp, List.filter_nil, Bool.false_eq_true,
                if_false, List.append_nil]
              exact hmo et2 eid2 m2
            | true =>
              have hkeys : et2 = et ∧ eid2 = eid ∧ m2 = pyOrStr m EMBEDDINGS_MODEL := by
                unfold keyMatches insertedEmbRow at hp
                simp only [Bool.and_eq_true, beq_iff_eq] at hp
                exact ⟨hp.1.1.symm, hp.1.2.symm, hp.2.symm⟩
              obtain ⟨h1, h2, h3⟩ := hkeys
              have hempty := (latestRow_none_iff db.rows et eid
                (pyOrStr m EMBEDDINGS_MODEL)).mp hrow
              rw [h1, h2, h3, hempty]
              simp only [List.nil_append, List.filter_cons, List.filter_nil]
              split
              · simp
              · simp
  · -- idempotence
    intro hnorm hvec
    cases hrow : latestRow db.rows et eid (pyOrStr m EMBEDDINGS_MODEL) with
    | some row =>
      cases hcond : (row.text_hash ==
          text_hash (normalize_text text) (pyOrStr m EMBEDDINGS_MODEL)
          && !(row.vector_json == "")) with
      | true =>
        have hfirst := goce_reuse embedFn db et eid text m row hnorm hrow hcond
        rw [hfirst]
        exact hfirst
      | false =>
        have hfirst := goce_update embedFn db et eid text m row hnorm hrow hcond hvec
        have hkeyrow := (latestRow_mem db.rows et eid
          (pyOrStr m EMBEDDINGS_MODEL) row hrow).2
        have hmemrow := (latestRow_mem db.rows et eid
          (pyOrStr m EMBEDDINGS_MODEL) row hrow).1
        have hrow1 : latestRow
            (get_or_create_embedding embedFn true db et eid text m).2.rows et eid
            (pyOrStr m EMBEDDINGS_MODEL)
            = some (updatedEmbRow row
                (text_hash (normalize_text text) (pyOrStr m EMBEDDINGS_MODEL))
                (serializeVec (embed_text embedFn true (normalize_text text)))
                (embed_text embedFn true (normalize_text text)).length (db.clock + 1)) := by
          rw [hfirst]
          apply latestRow_after_write _ _ _ _ _ db.clock
          · exact nw_mem_replaceRow db.rows row _ hmemrow
          · exact hkeyrow
          · rfl
          · intro r hr hrne
            rcases mem_replaceRow _ _ _ _ hr with h | h
            · exact absurd h hrne
            · exact hclock r h
        have hcond1 : ((updatedEmbRow row
              (text_hash (normalize_text text) (pyOrStr m EMBEDDINGS_MODEL))
              (serializeVec (embed_text embedFn true (normalize_text text)))
              (embed_text embedFn true (normalize_text text)).length
              (db.clock + 1)).text_hash ==
            text_hash (normalize_text text) (pyOrStr m EMBEDDINGS_MODEL)
            && !((updatedEmbRow row
              (text_hash (normalize_text text) (pyOrStr m EMBEDDINGS_MODEL))
              (serializeVec (embed_text embedFn true (normalize_text text)))
              (embed_text embedFn true (normalize_text text)).length
              (db.clock + 1)).vector_json == "")) = true := by
          show ((text_hash (normalize_text text) (pyOrStr m EMBEDDINGS_MODEL) ==
              text_hash (normalize_text text) (pyOrStr m EMBEDDINGS_MODEL))
            && !((serializeVec (embed_text embedFn true (normalize_text text))) == "")) = true
          rw [beq_self_eq_true]
          rw [beq_eq_false_iff_ne.mpr
            (serializeVec_ne_empty (embed_text embedFn true (normalize_text text)))]
          rfl
        have hsecond := goce_reuse embedFn
          (get_or_create_embedding embedFn true db et eid text m).2 et eid text m _
          hnorm hrow1 hcond1
        rw [hfirst] at hsecond ⊢
        exact hsecond
    | none =>
      have hfirst := goce_insert embedFn db et eid text m hnorm hrow hvec
      have hrow1 : latestRow
          (get_or_create_embedding embedFn true db et eid text m).2.rows et eid
          (pyOrStr m EMBEDDINGS_MODEL)
          = some (insertedEmbRow et eid (pyOrStr m EMBEDDINGS_MODEL)
              (embed_text embedFn true (normalize_text text)).length
              (text_hash (normalize_text text) (pyOrStr m EMBEDDINGS_MODEL))
              (serializeVec (embed_text embedFn true (normalize_text text)))
              (db.clock + 1)) := by
        rw [hfirst]
        apply latestRow_after_write _ _ _ _ _ db.clock
        · exact List.mem_append_right _ (List.mem_singleton.mpr rfl)
        · unfold keyMatches insertedEmbRow
          simp
        · rfl
        · intro r hr hrne
          rcases List.mem_append.mp hr with h | h
          · exact hclock r h
          · exact absurd (List.mem_singleton.mp h) hrne
      have hcond1 : ((insertedEmbRow et eid (pyOrStr m EMBEDDINGS_MODEL)
            (embed_text embedFn true (normalize_text text)).length
            (text_hash (normalize_text text) (pyOrStr m EMBEDDINGS_MODEL))
            (serializeVec (embed_text embedFn true (normalize_text text)))
            (db.clock + 1)).text_hash ==
          text_hash (normalize_text text) (pyOrStr m EMBEDDINGS_MODEL)
          && !((insertedEmbRow et eid (pyOrStr m EMBEDDINGS_MODEL)
            (embed_text embedFn true (normalize_text text)).length
            (text_hash (normalize_text text) (pyOrStr m EMBEDDINGS_MODEL))
            (serializeVec (embed_text embedFn true (normalize_text text)))
            (db.clock + 1)).vector_json == "")) = true := by
        show ((text_hash (normalize_text text) (pyOrStr m EMBEDDINGS_MODEL) ==
            text_hash (normalize_text text) (pyOrStr m EMBEDDINGS_MODEL))
          && !((serializeVec (embed_text embedFn true (normalize_text text))) == "")) = true
        rw [beq_self_eq_true]
        rw [beq_eq_false_iff_ne.mpr
          (serializeVec_ne_empty (embed_text embedFn true (normalize_text text)))]
        rfl
      have hsecond := goce_reuse embedFn
        (get_or_create_embedding embedFn true db et eid text m).2 et eid text m _
        hnorm hrow1 hcond1
      rw [hfirst] at hsecond ⊢
      exact hsecond
  · -- update in place
    intro row hrow hdiff hnorm hvec
    have hcond : (row.text_hash ==
        text_hash (normalize_text text) (pyOrStr m EMBEDDINGS_MODEL)
        && !(row.vector_json == "")) = false := by
      rw [beq_eq_false_iff_ne.mpr hdiff]
      rfl
    have hfirst := goce_update embedFn db et eid text m row hnorm hrow hcond hvec
    rw [hfirst]
    constructor
    · exact replaceRow_length db.rows row _
    · rfl

/-- C7 witness: on an empty table with a constant injected embedder, the
call chain satisfies the invariant and the immediate second call is a
no-op returning the same row. -/
theorem get_or_create_embedding_spec_witness :
    atMostOnePerKey (get_or_create_embedding (fun _ => [1]) true ⟨[], 0⟩
      "resume" 1 "hello world" none).2.rows ∧
    get_or_create_embedding (fun _ => [1]) true
        (get_or_create_embedding (fun _ => [1]) true ⟨[], 0⟩
          "resume" 1 "hello world" none).2
        "resume" 1 "hello world" none
      = get_or_create_embedding (fun _ => [1]) true ⟨[], 0⟩
          "resume" 1 "hello world" none := by
  have h := get_or_create_embedding_spec (fun _ => [1]) ⟨[], 0⟩
    "resume" 1 "hello world" none (by intro r hr; simp at hr)
  refine ⟨h.1 true ?_, h.2.1 ?_ ?_⟩
  · intro et eid m
    simp
  · decide
  · decide

end Spec2Proof
